import Mathlib

/-!
Verification of the wyag content-addressable object store (src/libwyag.py)
against its natural-language specification.

The Python source is shallowly embedded: the filesystem is an explicit state
value (a finite list of directory paths and of file paths with contents),
paths are lists of segments (the result of os.path.join on absolute,
already-real paths), bytes are lists of naturals, and every fallible Python
operation returns an `Except PyErr`.  Each Python `raise` site and each
relevant builtin exception class gets its own `PyErr` constructor so that
error-classification claims can be stated faithfully.
-/

set_option maxRecDepth 16384

deriving instance DecidableEq for Except

/-- A filesystem path, as the list of its segments below the root.
`os.path.realpath` is assumed to have been applied: paths are absolute and
contain no `..` segments, so the parent of `p` is `p.dropLast` and the
filesystem root is `[]`. -/
abbrev FsPath := List String

/-- File contents.  Object files hold raw bytes.  The configuration file
written by `configparser` is modelled structurally as its list of
(section, option, value) entries rather than as INI text, since no claim
depends on the INI surface syntax. -/
inductive FileData where
  | bytes (bs : List Nat)
  | config (entries : List (String × String × String))
deriving DecidableEq

/-- Explicit filesystem state: the set of existing directories and the
existing regular files with their contents. -/
structure FS where
  dirs : List FsPath
  files : List (FsPath × FileData)
deriving DecidableEq

/-- One constructor per Python raise site / builtin exception class that the
embedded code can produce. -/
inductive PyErr where
  /-- `raise Exception("Not a directory %s")` in repo_dir. -/
  | notADirectory (p : FsPath)
  /-- `raise Exception("%s is not a directory!")` in repo_create. -/
  | notDirTarget (p : FsPath)
  /-- `raise Exception("%s is not empty!")` in repo_create. -/
  | notEmpty (p : FsPath)
  /-- `raise Exception("Configuration file missing")` in GitRepository.__init__. -/
  | configMissing
  /-- `raise Exception(f"Unsupported repositoryformatversion {vers}")`. -/
  | unsupportedVersion (v : Int)
  /-- `raise Exception("Unable to find .git directory.")` in repo_find. -/
  | noGitDir
  /-- `raise Exception(f"Malformed object {sha}: bad length")` in object_read. -/
  | malformedLength (sha : String)
  /-- `raise Exception(f"Unknown type ... for object {sha}")` in object_read. -/
  | unknownTypeRead (sha : String)
  /-- `raise Exception(f"Unknown type: {fmt}")` in object_hash. -/
  | unknownTypeHash
  /-- MalformedObject failure of the spec-modelled commit/tag header parser. -/
  | malformedKvlm
  /-- MalformedObject failure of the spec-modelled tree-entry parser. -/
  | malformedTree
  /-- Python builtin ValueError, e.g. from `int()` on a non-numeric string. -/
  | valueError
  /-- Python builtin TypeError from `open(None, ...)` when repo_file returned None. -/
  | typeErrorNonePath
  /-- Python builtin FileNotFoundError from `open` on a missing path. -/
  | fileNotFound (p : FsPath)
  /-- Python builtin IsADirectoryError from `open` on a directory. -/
  | isADirectory (p : FsPath)
  /-- Python builtin NotADirectoryError from `os.makedirs` when an
  intermediate path component is a regular file. -/
  | osNotADirectory (p : FsPath)
  /-- configparser parse failure on a config file whose content is not
  structured configuration data. -/
  | configParse
  /-- Python builtin AttributeError from `obj.repo.gitdir` when `obj.repo` is None. -/
  | attributeErrorNoneRepo
  /-- configparser NoSectionError / NoOptionError from `conf.get` on a
  missing section or option. -/
  | noSectionOrOption
deriving DecidableEq

/-- Membership of a path in a list of paths (decidable-equality recursion,
kept explicit so that proofs can compute). -/
def containsPath : List FsPath → FsPath → Bool
  | [], _ => false
  | q :: t, p => if q = p then true else containsPath t p

/-- First-match association lookup of a file's contents. -/
def findFile : List (FsPath × FileData) → FsPath → Option FileData
  | [], _ => none
  | e :: t, p => if e.1 = p then some e.2 else findFile t p

/-- `os.path.isdir`. -/
def isDir (fs : FS) (p : FsPath) : Bool := containsPath fs.dirs p

/-- Existence of `p` as a regular file. -/
def isFile (fs : FS) (p : FsPath) : Bool := (findFile fs.files p).isSome

/-- `os.path.exists`. -/
def existsPath (fs : FS) (p : FsPath) : Bool := isDir fs p || isFile fs p

/-- `base` is a (not necessarily proper) leading segment sequence of `q`. -/
def prefixOfPath : FsPath → FsPath → Bool
  | [], _ => true
  | _ :: _, [] => false
  | a :: as, b :: bs => if a = b then prefixOfPath as bs else false

/-- `q` lies strictly below the directory `base`. -/
def properUnder (base q : FsPath) : Bool :=
  prefixOfPath base q && !(decide (q = base))

/-- `os.listdir(p) != []`: some filesystem entry lies strictly below `p`. -/
def hasChildren (fs : FS) (p : FsPath) : Bool :=
  fs.dirs.any (fun q => properUnder p q) || fs.files.any (fun e => properUnder p e.1)

/-- All nonempty leading segment sequences of `p`, shortest first: the
directories `os.makedirs p` must ensure exist. -/
def prefixesOf (p : FsPath) : List FsPath :=
  (List.range p.length).map (fun i => p.take (i + 1))

/-- Worker for `os.makedirs`: ensure each listed directory exists, failing
with NotADirectoryError if one exists as a regular file. -/
def mkdirsList (fs : FS) : List FsPath → Except PyErr FS
  | [] => .ok fs
  | q :: rest =>
    if isDir fs q then mkdirsList fs rest
    else if isFile fs q then .error (.osNotADirectory q)
    else mkdirsList { fs with dirs := fs.dirs ++ [q] } rest

/-- `os.makedirs(p)`: create `p` and any missing ancestors. -/
def makedirs (fs : FS) (p : FsPath) : Except PyErr FS :=
  mkdirsList fs (prefixesOf p)

/-- `open(p, 'rb').read()`: the file's contents, or the builtin error Python
raises when `p` is a directory or absent. -/
def openRead (fs : FS) (p : FsPath) : Except PyErr FileData :=
  match findFile fs.files p with
  | some d => .ok d
  | none => if isDir fs p then .error (.isADirectory p) else .error (.fileNotFound p)

/-- Replace the contents of `p` if present, otherwise append the new file. -/
def upsertFile : List (FsPath × FileData) → FsPath → FileData → List (FsPath × FileData)
  | [], p, d => [(p, d)]
  | e :: t, p, d => if e.1 = p then (p, d) :: t else e :: upsertFile t p d

/-- `open(p, 'w'/'wb')` followed by a full write: truncate-or-create `p`. -/
def writeFile (fs : FS) (p : FsPath) (d : FileData) : Except PyErr FS :=
  if isDir fs p then .error (.isADirectory p)
  else .ok { fs with files := upsertFile fs.files p d }

/-- ASCII bytes of a string (`.encode('ascii')`; all literals involved are ASCII). -/
def asciiBytes (s : String) : List Nat := s.data.map Char.toNat

/-- Fuel-bounded digit accumulator (`n` itself is always sufficient fuel),
kept structurally recursive so that proofs can evaluate it. -/
def natDigitsCore : Nat → Nat → List Nat → List Nat
  | 0, _, acc => acc
  | fuel + 1, n, acc =>
    if n < 10 then (48 + n % 10) :: acc
    else natDigitsCore fuel (n / 10) ((48 + n % 10) :: acc)

/-- Decimal ASCII digits of a natural number: `str(n).encode('ascii')`. -/
def natDigits (n : Nat) : List Nat := natDigitsCore (n + 1) n []

/-- Python `str.strip` whitespace bytes (space, tab, LF, VT, FF, CR). -/
def isWsByte (b : Nat) : Bool := b = 32 || b = 9 || b = 10 || b = 11 || b = 12 || b = 13

/-- Value of a nonempty all-decimal digit string, else `none`. -/
def digitsVal (ds : List Nat) : Option Nat :=
  if ds ≠ [] ∧ ds.all (fun b => 48 ≤ b && b ≤ 57) then
    some (ds.foldl (fun a b => a * 10 + (b - 48)) 0)
  else none

/-- Python `int()` on a byte string: strip surrounding whitespace, then an
optional sign followed by decimal digits; ValueError (here `none`) otherwise. -/
def pyInt (bs : List Nat) : Option Int :=
  match ((bs.dropWhile isWsByte).reverse.dropWhile isWsByte).reverse with
  | [] => none
  | b :: ds =>
    if b = 45 then (digitsVal ds).map (fun n => -(n : Int))
    else if b = 43 then (digitsVal ds).map (fun n => (n : Int))
    else (digitsVal (b :: ds)).map (fun n => (n : Int))

/-- Python `int()` on a string. -/
def pyIntStr (s : String) : Option Int := pyInt (asciiBytes s)

/-- Index of the first occurrence of byte `b` in `l` at position `s` or
later, if any. -/
def byteIndexFrom : List Nat → Nat → Nat → Option Nat
  | [], _, _ => none
  | x :: t, b, 0 => if x = b then some 0 else (byteIndexFrom t b 0).map (· + 1)
  | _ :: t, b, s + 1 => (byteIndexFrom t b s).map (· + 1)

/-- Clamp a Python index (possibly negative, meaning from the end) into
`[0, len]`, as slicing and `find` do. -/
def pyIdx (len : Nat) (i : Int) : Nat :=
  if i < 0 then len - min len (-i).toNat else min i.toNat len

/-- Python `bytes.find(bytes([b]), start)`: first index ≥ start holding `b`,
or -1. -/
def bFind (l : List Nat) (b : Nat) (start : Int) : Int :=
  match byteIndexFrom l b (pyIdx l.length start) with
  | some i => (i : Int)
  | none => -1

/-- Python slice `l[a:b]` with possibly negative bounds. -/
def pySlice (l : List Nat) (a b : Int) : List Nat :=
  (l.take (pyIdx l.length b)).drop (pyIdx l.length a)

/-- 32-bit truncation. -/
def w32 (n : Nat) : Nat := n % 4294967296

/-- 32-bit left rotation by `s` (0 < s < 32). -/
def rotl32 (s n : Nat) : Nat := w32 (n * 2 ^ s + n / 2 ^ (32 - s))

/-- Big-endian 8-byte encoding of a (< 2^64) natural. -/
def be64 (n : Nat) : List Nat :=
  [n / 2 ^ 56 % 256, n / 2 ^ 48 % 256, n / 2 ^ 40 % 256, n / 2 ^ 32 % 256,
   n / 2 ^ 24 % 256, n / 2 ^ 16 % 256, n / 2 ^ 8 % 256, n % 256]

/-- Big-endian 4-byte encoding of a 32-bit word. -/
def be4 (n : Nat) : List Nat := [n / 2 ^ 24 % 256, n / 2 ^ 16 % 256, n / 2 ^ 8 % 256, n % 256]

/-- SHA-1 message padding: append 0x80, zero bytes to 56 mod 64, then the
bit length as 8 big-endian bytes. -/
def sha1pad (msg : List Nat) : List Nat :=
  msg ++ 128 :: List.replicate ((119 - msg.length % 64) % 64) 0 ++ be64 (8 * msg.length)

/-- Group a padded message into 32-bit big-endian words. -/
def bytesToWords : List Nat → List Nat
  | b0 :: b1 :: b2 :: b3 :: rest =>
      (b0 * 2 ^ 24 + b1 * 2 ^ 16 + b2 * 2 ^ 8 + b3) :: bytesToWords rest
  | _ => []

/-- Split a word list into 16-word blocks (structural 16-way pattern so that
proofs can evaluate it; a padded SHA-1 message always splits evenly). -/
def wordsToBlocks : List Nat → List (List Nat)
  | [] => []
  | w0 :: w1 :: w2 :: w3 :: w4 :: w5 :: w6 :: w7 ::
    w8 :: w9 :: w10 :: w11 :: w12 :: w13 :: w14 :: w15 :: rest =>
    [w0, w1, w2, w3, w4, w5, w6, w7, w8, w9, w10, w11, w12, w13, w14, w15]
      :: wordsToBlocks rest
  | ws => [ws]

/-- SHA-1 message-schedule extension of a 16-word block to 80 words. -/
def sha1Extend (ws : List Nat) : List Nat :=
  (List.range 64).foldl
    (fun acc _ =>
      let n := acc.length
      acc ++ [rotl32 1 (Nat.xor (Nat.xor (acc.getD (n - 3) 0) (acc.getD (n - 8) 0))
                        (Nat.xor (acc.getD (n - 14) 0) (acc.getD (n - 16) 0)))])
    ws

/-- SHA-1 round function selector. -/
def sha1F (i b c d : Nat) : Nat :=
  if i < 20 then Nat.lor (Nat.land b c) (Nat.land (Nat.xor b 4294967295) d)
  else if i < 40 then Nat.xor (Nat.xor b c) d
  else if i < 60 then Nat.lor (Nat.lor (Nat.land b c) (Nat.land b d)) (Nat.land c d)
  else Nat.xor (Nat.xor b c) d

/-- SHA-1 round constants. -/
def sha1K (i : Nat) : Nat :=
  if i < 20 then 1518500249
  else if i < 40 then 1859775393
  else if i < 60 then 2400959708
  else 3395469782

/-- Process one 80-word schedule over a 5-word state. -/
def sha1Block (h : Nat × Nat × Nat × Nat × Nat) (sched : List Nat) :
    Nat × Nat × Nat × Nat × Nat :=
  let (h0, h1, h2, h3, h4) := h
  let fin := (List.range 80).foldl
    (fun st i =>
      let (a, b, c, d, e) := st
      let t := w32 (rotl32 5 a + sha1F i b c d + e + sha1K i + sched.getD i 0)
      (t, a, rotl32 30 b, c, d))
    (h0, h1, h2, h3, h4)
  (w32 (h0 + fin.1), w32 (h1 + fin.2.1), w32 (h2 + fin.2.2.1),
   w32 (h3 + fin.2.2.2.1), w32 (h4 + fin.2.2.2.2))

/-- SHA-1 of a byte string, as the five 32-bit state words. -/
def sha1Words (msg : List Nat) : Nat × Nat × Nat × Nat × Nat :=
  ((wordsToBlocks (bytesToWords (sha1pad msg))).map sha1Extend).foldl sha1Block
    (1732584193, 4023233417, 2562383102, 271733878, 3285377520)

/-- SHA-1 digest of a byte string as 20 bytes. -/
def sha1Bytes (msg : List Nat) : List Nat :=
  let (h0, h1, h2, h3, h4) := sha1Words msg
  be4 h0 ++ be4 h1 ++ be4 h2 ++ be4 h3 ++ be4 h4

/-- Lower-case hex character of a value below 16. -/
def hexDig (n : Nat) : Char := if n < 10 then Char.ofNat (48 + n) else Char.ofNat (87 + n)

/-- `hashlib.sha1(...).hexdigest()`: the 40-character lower-case hex digest. -/
def sha1hex (msg : List Nat) : String :=
  String.mk ((sha1Bytes msg).foldr (fun b acc => hexDig (b / 16 % 16) :: hexDig (b % 16) :: acc) [])

/-- Model of `zlib.compress`: the spec requires only a general-purpose
lossless coding applied to the whole envelope, and no claim depends on the
coded bytes themselves, so the coding is modelled as the identity. -/
def zlibCompress (bs : List Nat) : List Nat := bs

/-- Model of `zlib.decompress`, inverse of `zlibCompress`. -/
def zlibDecompress (bs : List Nat) : List Nat := bs

/-- One configparser entry lookup: first value stored for (section, option). -/
def confGet : List (String × String × String) → String → String → Option String
  | [], _, _ => none
  | e :: t, s, o => if e.1 = s ∧ e.2.1 = o then some e.2.2 else confGet t s o

/-- A git repository handle: worktree, gitdir (the store root) and the
loaded configuration entries (empty when no configuration was read). -/
structure GitRepository where
  worktree : FsPath
  gitdir : FsPath
  conf : List (String × String × String)
deriving DecidableEq

/-- The partially initialised handle as it exists at the top of
`GitRepository.__init__`: worktree and gitdir set, configuration empty. -/
def mkRepoRecord (path : FsPath) : GitRepository :=
  { worktree := path, gitdir := path ++ [".git"], conf := [] }

/-- `repo_path(repo, *path)`: join segments under the gitdir. -/
def repo_path (repo : GitRepository) (segs : FsPath) : FsPath := repo.gitdir ++ segs

/-- `repo_dir(repo, *path, mkdir)`: return the joined path if it is (or, with
`mkdir`, is made) a directory, `none` if absent and not created, raising if
it exists as a regular file. -/
def repo_dir (fs : FS) (repo : GitRepository) (segs : FsPath) (mkdir : Bool) :
    Except PyErr (Option FsPath × FS) :=
  let path := repo_path repo segs
  if existsPath fs path then
    if isDir fs path then .ok (some path, fs) else .error (.notADirectory path)
  else if mkdir then do
    let fs2 ← makedirs fs path
    .ok (some path, fs2)
  else .ok (none, fs)

/-- `repo_file(repo, *path, mkdir)`: ensure the dirname exists (per `mkdir`)
and return the joined path, or `none` (Python's implicit None) when the
dirname is absent. -/
def repo_file (fs : FS) (repo : GitRepository) (segs : FsPath) (mkdir : Bool) :
    Except PyErr (Option FsPath × FS) := do
  let (d, fs2) ← repo_dir fs repo segs.dropLast mkdir
  match d with
  | some _ => .ok (some (repo_path repo segs), fs2)
  | none => .ok (none, fs2)

/-- Load the configuration file's entries, as `ConfigParser.read` does:
structured entries are read; a directory path is silently skipped (yielding
no entries); raw bytes at the config path fail to parse. -/
def readConfData : FileData → Except PyErr (List (String × String × String))
  | .config e => .ok e
  | .bytes _ => .error .configParse

/-- `GitRepository.__init__(path, force)`.  Note the source's intended
existence check `if not (force or os.path.isdir)` tests the function object
`os.path.isdir` itself, which is always truthy, so the guard can never fire
and is modelled as absent. -/
def gitRepositoryInit (fs : FS) (path : FsPath) (force : Bool) : Except PyErr GitRepository := do
  let repo0 := mkRepoRecord path
  let (cf, _) ← repo_file fs repo0 ["config"] false
  let conf ←
    match cf with
    | some cfPath =>
      if existsPath fs cfPath then
        match findFile fs.files cfPath with
        | some d => readConfData d
        | none => .ok []
      else if !force then .error .configMissing else .ok []
    | none => if !force then .error .configMissing else .ok []
  if !force then
    match confGet conf "core" "repositoryformatversion" with
    | none => .error .noSectionOrOption
    | some s =>
      match pyIntStr s with
      | none => .error .valueError
      | some vers =>
        if vers ≠ 0 then .error (.unsupportedVersion vers)
        else .ok { repo0 with conf := conf }
  else .ok { repo0 with conf := conf }

/-- `repo_default_config()`: the three default [core] entries. -/
def repo_default_config : List (String × String × String) :=
  [("core", "repositoryformatversion", "0"), ("core", "filemode", "false"),
   ("core", "bare", "false")]

/-- Contents of the bootstrap description file. -/
def descriptionBytes : List Nat :=
  asciiBytes "Unnamed repository; edit this file \x27description\x27 to name the repository.\n"

/-- Contents of the bootstrap HEAD file. -/
def headRefBytes : List Nat := asciiBytes "ref: refs/heads/master\n"

/-- `repo_create(path)`. -/
def repo_create (fs : FS) (path : FsPath) : Except PyErr (GitRepository × FS) := do
  let repo ← gitRepositoryInit fs path true
  let fs1 ←
    if existsPath fs repo.worktree then
      if !isDir fs repo.worktree then .error (.notDirTarget path)
      else if hasChildren fs repo.worktree then .error (.notEmpty path)
      else .ok fs
    else makedirs fs repo.worktree
  let (_, fs2) ← repo_dir fs1 repo ["branches"] true
  let (_, fs3) ← repo_dir fs2 repo ["objects"] true
  let (_, fs4) ← repo_dir fs3 repo ["refs", "tags"] true
  let (_, fs5) ← repo_dir fs4 repo ["refs", "heads"] true
  let (descPath, fs6) ← repo_file fs5 repo ["description"] false
  let fs7 ←
    match descPath with
    | none => .error .typeErrorNonePath
    | some p => writeFile fs6 p (.bytes descriptionBytes)
  let (headPath, fs8) ← repo_file fs7 repo ["HEAD"] false
  let fs9 ←
    match headPath with
    | none => .error .typeErrorNonePath
    | some p => writeFile fs8 p (.bytes headRefBytes)
  let (confPath, fs10) ← repo_file fs9 repo ["config"] false
  let fs11 ←
    match confPath with
    | none => .error .typeErrorNonePath
    | some p => writeFile fs10 p (.config repo_default_config)
  .ok (repo, fs11)

/-- `repo_find(path, required)`: walk upward from `path` until a `.git`
directory is found; at the filesystem root (`parent == path`, here `[]`)
either raise or return None according to `required`. -/
def repo_find (fs : FS) (path : FsPath) (required : Bool) :
    Except PyErr (Option GitRepository) :=
  if isDir fs (path ++ [".git"]) then
    (gitRepositoryInit fs path false).map (fun r => some r)
  else if path = [] then
    if required then .error .noGitDir else .ok none
  else repo_find fs path.dropLast required
termination_by path.length
decreasing_by
  rename_i hne
  have : path ≠ [] := by
    intro hnil
    exact absurd hnil (by simpa using hne)
  cases path with
  | nil => exact absurd rfl this
  | cons a t => simp [List.dropLast]

/-- The first ancestor of `path` (including `path` itself) whose `.git`
entry is a directory: the store root `repo_find` is specified to discover. -/
def firstMarker (fs : FS) (path : FsPath) : Option FsPath :=
  if isDir fs (path ++ [".git"]) then some path
  else if path = [] then none
  else firstMarker fs path.dropLast
termination_by path.length
decreasing_by
  rename_i hne
  have : path ≠ [] := by
    intro hnil
    exact absurd hnil (by simpa using hne)
  cases path with
  | nil => exact absurd rfl this
  | cons a t => simp [List.dropLast]

/-- The loaded configuration of the store at `path` declares format version
0: the config file exists as structured entries whose
core/repositoryformatversion value parses to 0. -/
def configVersionZero (fs : FS) (path : FsPath) : Bool :=
  match findFile fs.files (path ++ [".git", "config"]) with
  | some (.config e) =>
    match confGet e "core" "repositoryformatversion" with
    | some s => decide (pyIntStr s = some 0)
    | none => false
  | _ => false

/-- The four object type tags of `cls_map`. -/
inductive GitCls where
  | commit
  | tree
  | tag
  | blob
deriving DecidableEq

/-- Byte string of an ASCII type name. -/
def bBlob : List Nat := asciiBytes "blob"

/-- Byte string of the commit type name. -/
def bCommit : List Nat := asciiBytes "commit"

/-- Byte string of the tree type name. -/
def bTree : List Nat := asciiBytes "tree"

/-- Byte string of the tag type name. -/
def bTag : List Nat := asciiBytes "tag"

/-- `cls_map.get(fmt)`: dispatch a format byte string to its class. -/
def cls_map_get (fmt : List Nat) : Option GitCls :=
  if fmt = bCommit then some .commit
  else if fmt = bTree then some .tree
  else if fmt = bTag then some .tag
  else if fmt = bBlob then some .blob
  else none

/-- One tree entry.  Modelled from the spec: entry = file-mode string,
path-segment name, 20-byte raw content-hash digest of the referenced object
(`GitTree` is referenced by `cls_map` but its class is absent from the
source). -/
structure TreeEntry where
  mode : List Nat
  name : List Nat
  sha : List Nat
deriving DecidableEq

/-- In-memory payload of each object variant.  Blob is the source's
`GitBlob.blob_data`; commit/tag are modelled from the spec as an ordered
header mapping plus a message; tree as an entry sequence. -/
inductive ObjData where
  | blob (d : List Nat)
  | commit (headers : List (List Nat × List Nat)) (msg : List Nat)
  | tree (entries : List TreeEntry)
  | tag (headers : List (List Nat × List Nat)) (msg : List Nat)
deriving DecidableEq

/-- Continuation-escape a header value: each LF is rendered as LF + space.
Modelled from the spec: multi-line values are continuation-escaped by
prefixing continuation lines with a space. -/
def escapeVal : List Nat → List Nat
  | [] => []
  | b :: t => if b = 10 then 10 :: 32 :: escapeVal t else b :: escapeVal t

/-- Serialize a commit/tag: each header as `key SP escaped-value LF`, then a
blank line, then the raw message.  Modelled from the spec (the `GitCommit`
and `GitTag` classes are absent from the source). -/
def serializeKVLM (hs : List (List Nat × List Nat)) (msg : List Nat) : List Nat :=
  match hs with
  | [] => 10 :: msg
  | (k, v) :: t => k ++ 32 :: (escapeVal v ++ 10 :: serializeKVLM t msg)

/-- The lines of a byte string, split at LF bytes; always nonempty, and
`joinLines` is its exact inverse. -/
def linesOf : List Nat → List (List Nat)
  | [] => [[]]
  | b :: t =>
    if b = 10 then [] :: linesOf t
    else
      match linesOf t with
      | [] => [[b]]
      | x :: xs => (b :: x) :: xs

/-- Rejoin lines with LF separators (inverse of `linesOf`). -/
def joinLines : List (List Nat) → List Nat
  | [] => []
  | [l] => l
  | l :: l2 :: ls => l ++ 10 :: joinLines (l2 :: ls)

/-- Does a line start with the continuation marker (a space)? -/
def startsWithSpace : List Nat → Bool
  | [] => false
  | b :: _ => decide (b = 32)

/-- Split a byte string at the first occurrence of `sep`, if any. -/
def splitAtByte (sep : Nat) : List Nat → Option (List Nat × List Nat)
  | [] => none
  | b :: t =>
    if b = sep then some ([], t)
    else (splitAtByte sep t).map (fun r => (b :: r.1, r.2))

/-- Unescape continuation lines: each contributes LF plus the line with its
leading space removed. -/
def contValue : List (List Nat) → List Nat
  | [] => []
  | l :: ls => 10 :: l.drop 1 ++ contValue ls

/-- Parse header lines up to the blank separator line.  Modelled from the
spec: `deserialize` is the inverse of the header rendering and fails with
MalformedObject if headers cannot be parsed (no space in a header line, a
continuation with no preceding header, or no blank separator line). -/
def parseHL : (ls : List (List Nat)) →
    Except PyErr (List (List Nat × List Nat) × List (List Nat))
  | [] => .error .malformedKvlm
  | line :: rest =>
    if line = [] then .ok ([], rest)
    else
      match splitAtByte 32 line with
      | none => .error .malformedKvlm
      | some (key, v0) =>
        if key = [] then .error .malformedKvlm
        else
          let conts := rest.takeWhile startsWithSpace
          let rest2 := rest.dropWhile startsWithSpace
          match parseHL rest2 with
          | .ok (hs, ml) => .ok ((key, v0 ++ contValue conts) :: hs, ml)
          | .error e => .error e
termination_by ls => ls.length
decreasing_by
  exact Nat.lt_of_le_of_lt (List.Sublist.length_le (List.dropWhile_sublist _)) (by simp)

/-- Parse a serialized commit/tag into headers and message.  Modelled from
the spec. -/
def parseKVLM (data : List Nat) : Except PyErr (List (List Nat × List Nat) × List Nat) :=
  (parseHL (linesOf data)).map (fun p => (p.1, joinLines p.2))

/-- Serialized form of one tree entry: `mode SP name NUL 20-byte-sha`.
Modelled from the spec. -/
def serializeTreeEntry (e : TreeEntry) : List Nat :=
  e.mode ++ 32 :: (e.name ++ 0 :: e.sha)

/-- Serialized form of a tree: its entries concatenated in stored order.
Modelled from the spec. -/
def serializeTree (es : List TreeEntry) : List Nat :=
  match es with
  | [] => []
  | e :: t => serializeTreeEntry e ++ serializeTree t

/-- Parse a serialized tree.  Modelled from the spec: fails with
MalformedObject on a truncated entry. -/
def parseTree : (l : List Nat) → Except PyErr (List TreeEntry)
  | [] => .ok []
  | b :: t =>
    match h : splitAtByte 32 (b :: t) with
    | none => .error .malformedTree
    | some (mode, r1) =>
      match h2 : splitAtByte 0 r1 with
      | none => .error .malformedTree
      | some (name, r2) =>
        if 20 ≤ r2.length then
          match parseTree (r2.drop 20) with
          | .ok rest => .ok ({ mode := mode, name := name, sha := r2.take 20 } :: rest)
          | .error e => .error e
        else .error .malformedTree
termination_by l => l.length
decreasing_by
  have key : ∀ (sep : Nat) (l : List Nat) (res : List Nat × List Nat),
      splitAtByte sep l = some res → res.2.length < l.length := by
    intro sep l
    induction l with
    | nil => intro res hres; simp [splitAtByte] at hres
    | cons a t ih =>
      intro res hres
      by_cases ha : a = sep
      · simp [splitAtByte, ha] at hres
        cases hres
        simp
      · simp only [splitAtByte, if_neg ha] at hres
        cases ht : splitAtByte sep t with
        | none => rw [ht] at hres; simp at hres
        | some r =>
          rw [ht] at hres
          have heq : (a :: r.1, r.2) = res := by simpa using hres
          have hlt := ih r ht
          subst heq
          simp
          omega
  have h1 := key 32 _ _ h
  have h2b := key 0 _ _ h2
  have h3 : (r2.drop 20).length ≤ r2.length := by simp
  simp at h1 h2b ⊢
  omega

/-- `serialize` of each variant: blob payload verbatim (source `GitBlob`);
commit/tag as rendered headers + message and tree as concatenated entries
(modelled from the spec, the corresponding classes being absent from the
source). -/
def serializeObj : ObjData → List Nat
  | .blob d => d
  | .commit hs msg => serializeKVLM hs msg
  | .tag hs msg => serializeKVLM hs msg
  | .tree es => serializeTree es

/-- The `fmt` class attribute of each variant. -/
def fmtOf : ObjData → List Nat
  | .blob _ => bBlob
  | .commit _ _ => bCommit
  | .tag _ _ => bTag
  | .tree _ => bTree

/-- `cls(repo, data)`'s deserialization step for a resolved class: blob
stores the bytes verbatim (source `GitBlob.deserialize`); commit/tag/tree
parse their grammars (modelled from the spec). -/
def clsDeserialize (c : GitCls) (data : List Nat) : Except PyErr ObjData :=
  match c with
  | .blob => .ok (.blob data)
  | .commit => (parseKVLM data).map (fun p => .commit p.1 p.2)
  | .tag => (parseKVLM data).map (fun p => .tag p.1 p.2)
  | .tree => (parseTree data).map (fun es => .tree es)

/-- An in-memory git object: the owning repository handle (None for the
repo-less dry-run path of hash-object) and the variant payload. -/
structure GitObject where
  repo : Option GitRepository
  data : ObjData
deriving DecidableEq

/-- The envelope built by `object_write` (line 254):
`fmt + b' ' + str(len(data)) + b'\x00' + data`. -/
def envelopeBytes (fmt data : List Nat) : List Nat :=
  fmt ++ 32 :: (natDigits data.length ++ 0 :: data)

/-- The envelope-parsing portion of `object_read` (lines 231-239), factored
out: find the space, slice the format, find the NUL, parse the declared
size, check it against the actual payload length (raising the malformed
error naming `sha`), and return format and payload. -/
def unenvelope (sha : String) (raw : List Nat) : Except PyErr (List Nat × List Nat) :=
  let fmt_index := bFind raw 32 0
  let fmt := pySlice raw 0 fmt_index
  let size_index := bFind raw 0 fmt_index
  match pyInt (pySlice raw fmt_index size_index) with
  | none => .error .valueError
  | some size =>
    if size ≠ (raw.length : Int) - size_index - 1 then .error (.malformedLength sha)
    else .ok (fmt, pySlice raw (size_index + 1) (raw.length : Int))

/-- The two-level loose-object path `objects/<first-2>/<rest>` of a key
under a handle's store root. -/
def objectFilePath (repo : GitRepository) (sha : String) : FsPath :=
  repo.gitdir ++ ["objects", sha.take 2, sha.drop 2]

/-- The store's existence check for a key (the spec's `exists` operation;
the source has no corresponding function). -/
def storeHasObject (fs : FS) (repo : GitRepository) (sha : String) : Bool :=
  isFile fs (objectFilePath repo sha)

/-- `object_read(repo, sha)`. -/
def object_read (fs : FS) (repo : GitRepository) (sha : String) :
    Except PyErr GitObject := do
  let (pathOpt, fs2) ← repo_file fs repo ["objects", sha.take 2, sha.drop 2] false
  match pathOpt with
  | none => .error .typeErrorNonePath
  | some path => do
    let content ← openRead fs2 path
    let compressed :=
      match content with
      | .bytes bs => bs
      | .config _ => []
    let raw := zlibDecompress compressed
    let (fmt, data) ← unenvelope sha raw
    match cls_map_get fmt with
    | none => .error (.unknownTypeRead sha)
    | some c => (clsDeserialize c data).map (fun d => { repo := some repo, data := d })

/-- `object_write(obj, actually_write)`. -/
def object_write (obj : GitObject) (actuallyWrite : Bool) (fs : FS) :
    Except PyErr (String × FS) :=
  let data := serializeObj obj.data
  let result := envelopeBytes (fmtOf obj.data) data
  let sha := sha1hex result
  if actuallyWrite then
    match obj.repo with
    | none => .error .attributeErrorNoneRepo
    | some repo => do
      let (pathOpt, fs2) ← repo_file fs repo ["objects", sha.take 2, sha.drop 2] true
      match pathOpt with
      | none => .error .typeErrorNonePath
      | some path => do
        let fs3 ← writeFile fs2 path (.bytes (zlibCompress result))
        .ok (sha, fs3)
  else .ok (sha, fs)

/-- `object_find(repo, name, fmt, follow)`: the resolver of this core.  The
source body is exactly `return name`. -/
def object_find (repo : GitRepository) (name : String) (fmt : Option (List Nat))
    (follow : Bool) : String :=
  name

/-- `object_hash(f, fmt, repo)` with `data = f.read()` already taken: build
the object of class `fmt` from `data` and write it, persisting exactly when
a repository was supplied. -/
def object_hash (data : List Nat) (fmt : List Nat) (repo : Option GitRepository)
    (fs : FS) : Except PyErr (String × FS) :=
  match cls_map_get fmt with
  | none => .error .unknownTypeHash
  | some c => do
    let d ← clsDeserialize c data
    object_write { repo := repo, data := d } repo.isSome fs

/-- Well-formed commit/tag headers: each key is nonempty and contains no
space and no LF (the data-model invariants of header keys; the parser can
never produce anything else). -/
def WfHeaders (hs : List (List Nat × List Nat)) : Prop :=
  ∀ kv ∈ hs, kv.1 ≠ [] ∧ 32 ∉ kv.1 ∧ 10 ∉ kv.1

/-- Well-formed tree entries: mode without spaces, name without NULs, and a
20-byte raw digest (the data-model invariants of tree entries). -/
def WfTreeEntries (es : List TreeEntry) : Prop :=
  ∀ e ∈ es, 32 ∉ e.mode ∧ 0 ∉ e.name ∧ e.sha.length = 20

/-- A base filesystem holding only the directory /tmp. -/
def fsBase : FS := { dirs := [["tmp"]], files := [] }

/-- The example worktree /tmp/r1. -/
def wtR1 : FsPath := ["tmp", "r1"]

/-- The example store root /tmp/r1/.git. -/
def gitR1 : FsPath := ["tmp", "r1", ".git"]

/-- The handle on /tmp/r1 as built before any configuration is read. -/
def repoR1 : GitRepository := mkRepoRecord wtR1

/-- The on-disk state of a freshly initialized repository at /tmp/r1
(what `repo_create fsBase wtR1` produces). -/
def fsSkel : FS :=
  { dirs := [["tmp"], wtR1, gitR1, gitR1 ++ ["branches"], gitR1 ++ ["objects"],
             gitR1 ++ ["refs"], gitR1 ++ ["refs", "tags"], gitR1 ++ ["refs", "heads"]],
    files := [(gitR1 ++ ["description"], .bytes descriptionBytes),
              (gitR1 ++ ["HEAD"], .bytes headRefBytes),
              (gitR1 ++ ["config"], .config repo_default_config)] }

/-- A filesystem with a marker directory a/.git but no configuration file. -/
def fsBareMarker : FS := { dirs := [["a"], ["a", ".git"]], files := [] }

/-- No filesystem entry exists at or below `base` (decidable form used as a
precondition of the initialization theorem). -/
def noEntryAtOrUnder (fs : FS) (base : FsPath) : Bool :=
  fs.dirs.all (fun q => !prefixOfPath base q) && fs.files.all (fun e => !prefixOfPath base e.1)

/-- Every proper ancestor of `base` exists as a directory (decidable form). -/
def ancestorsAreDirs (fs : FS) (base : FsPath) : Bool :=
  (prefixesOf base).dropLast.all (fun q => containsPath fs.dirs q)

/-- The seven directories repo_create creates, in creation order. -/
def skeletonDirs (wt : FsPath) : List FsPath :=
  [wt, wt ++ [".git"], wt ++ [".git", "branches"], wt ++ [".git", "objects"],
   wt ++ [".git", "refs"], wt ++ [".git", "refs", "tags"], wt ++ [".git", "refs", "heads"]]

/-- The three bootstrap files repo_create writes, in creation order. -/
def skeletonFiles (wt : FsPath) : List (FsPath × FileData) :=
  [(wt ++ [".git", "description"], .bytes descriptionBytes),
   (wt ++ [".git", "HEAD"], .bytes headRefBytes),
   (wt ++ [".git", "config"], .config repo_default_config)]

theorem containsPath_iff_mem (l : List FsPath) (p : FsPath) :
    containsPath l p = true ↔ p ∈ l := by
  induction l with
  | nil => simp [containsPath]
  | cons q t ih =>
    by_cases h : q = p
    · simp [containsPath, h]
    · simp [containsPath, h, ih]
      intro hc
      exact absurd hc.symm h

theorem containsPath_append (l1 l2 : List FsPath) (p : FsPath) :
    containsPath (l1 ++ l2) p = (containsPath l1 p || containsPath l2 p) := by
  induction l1 with
  | nil => simp [containsPath]
  | cons q t ih =>
    by_cases h : q = p <;> simp [containsPath, h, ih]

theorem findFile_append (f1 f2 : List (FsPath × FileData)) (p : FsPath) :
    findFile (f1 ++ f2) p = (findFile f1 p).or (findFile f2 p) := by
  induction f1 with
  | nil => simp [findFile]
  | cons e t ih =>
    by_cases h : e.1 = p <;> simp [findFile, h, ih]

theorem upsertFile_find_self (fls : List (FsPath × FileData)) (p : FsPath) (d : FileData) :
    findFile (upsertFile fls p d) p = some d := by
  induction fls with
  | nil => simp [upsertFile, findFile]
  | cons e t ih =>
    by_cases h : e.1 = p <;> simp [upsertFile, findFile, h, ih]

theorem upsertFile_absent (fls : List (FsPath × FileData)) (p : FsPath) (d : FileData)
    (h : findFile fls p = none) : upsertFile fls p d = fls ++ [(p, d)] := by
  induction fls with
  | nil => simp [upsertFile]
  | cons e t ih =>
    by_cases he : e.1 = p
    · simp [findFile, he] at h
    · simp [findFile, he] at h
      simp [upsertFile, he, ih h]

/-- C1 counterexample: on a freshly initialized repository whose store
contains no objects, the resolver is handed a key that does not exist in
the store and still returns it normally instead of failing with
ObjectNotFound as the claim asserts. -/
theorem claimC1_counterexample :
    object_find repoR1 "da39a3ee5e6b4b0d3255bfef95601890afd80709" none true =
      "da39a3ee5e6b4b0d3255bfef95601890afd80709" ∧
    storeHasObject fsSkel repoR1 "da39a3ee5e6b4b0d3255bfef95601890afd80709" = false := by
  constructor
  · rfl
  · decide

/-- C1 (amended): `object_find` returns the name unchanged unconditionally —
it performs no existence check against the store, and in particular does not
fail even when the key is absent from the store. -/
theorem claimC1 (fs : FS) (repo : GitRepository) (name : String)
    (fmt : Option (List Nat)) (follow : Bool)
    (habsent : storeHasObject fs repo name = false) :
    object_find repo name fmt follow = name := rfl

/-- C1 witness. -/
theorem claimC1_witness :
    storeHasObject fsBase repoR1 "ab" = false ∧
    object_find repoR1 "ab" none true = "ab" :=
  ⟨by decide, claimC1 fsBase repoR1 "ab" none true (by decide)⟩

theorem repo_dir_nomkdir (fs : FS) (repo : GitRepository) (segs : FsPath) :
    repo_dir fs repo segs false =
      (if isDir fs (repo_path repo segs) then .ok (some (repo_path repo segs), fs)
       else if isFile fs (repo_path repo segs) then
         .error (.notADirectory (repo_path repo segs))
       else .ok (none, fs)) := by
  by_cases h1 : isDir fs (repo_path repo segs) <;>
    by_cases h2 : isFile fs (repo_path repo segs) <;>
      simp [repo_dir, existsPath, h1, h2]

theorem repo_file_config (fs : FS) (path : FsPath) :
    repo_file fs (mkRepoRecord path) ["config"] false =
      (if isDir fs (path ++ [".git"]) then .ok (some (path ++ [".git", "config"]), fs)
       else if isFile fs (path ++ [".git"]) then .error (.notADirectory (path ++ [".git"]))
       else .ok (none, fs)) := by
  have hg : repo_path (mkRepoRecord path) [] = path ++ [".git"] := by
    simp [repo_path, mkRepoRecord]
  have hc : repo_path (mkRepoRecord path) ["config"] = path ++ [".git", "config"] := by
    simp [repo_path, mkRepoRecord]
  unfold repo_file
  rw [show (["config"] : FsPath).dropLast = ([] : FsPath) from rfl]
  rw [repo_dir_nomkdir, hg]
  by_cases h1 : isDir fs (path ++ [".git"]) <;>
    by_cases h2 : isFile fs (path ++ [".git"]) <;>
      simp [h1, h2, bind, Except.bind, hc]

/-- C2: constructing a handle with force=false succeeds exactly when the
store root `.git` exists as a directory and the loaded configuration's
repositoryformatversion is 0; in every other case (root missing or a file,
configuration missing, unreadable, without the option, or with a different
version) construction fails. -/
theorem claimC2 (fs : FS) (path : FsPath) :
    (gitRepositoryInit fs path false).isOk =
      (isDir fs (path ++ [".git"]) && configVersionZero fs path) := by
  unfold gitRepositoryInit
  dsimp only
  rw [repo_file_config]
  by_cases h1 : isDir fs (path ++ [".git"])
  · simp only [h1, if_true]
    simp only [bind, Except.bind]
    unfold configVersionZero
    cases hf : findFile fs.files (path ++ [".git", "config"]) with
    | none =>
      have hef : isFile fs (path ++ [".git", "config"]) = false := by
        simp [isFile, hf]
      by_cases hd : isDir fs (path ++ [".git", "config"])
      · simp [existsPath, hd, hef, hf, confGet, Except.isOk, Except.toBool]
      · simp [existsPath, hd, hef, hf, Except.isOk, Except.toBool]
    | some d =>
      have hef : existsPath fs (path ++ [".git", "config"]) = true := by
        simp [existsPath, isFile, hf]
      cases d with
      | bytes bs => simp [hef, hf, readConfData, Except.isOk, Except.toBool]
      | config e =>
        simp only [hef, if_true, hf, readConfData]
        cases hcg : confGet e "core" "repositoryformatversion" with
        | none => simp [hcg, Except.isOk, Except.toBool]
        | some s =>
          cases hpi : pyIntStr s with
          | none => simp [hpi, Except.isOk, Except.toBool]
          | some v =>
            by_cases hv : v = 0
            · simp [hpi, hv, Except.isOk, Except.toBool]
            · simp [hpi, hv, Except.isOk, Except.toBool]
  · simp only [h1, if_false, Bool.false_and]
    by_cases h2 : isFile fs (path ++ [".git"]) <;>
      simp [h2, bind, Except.bind, Except.isOk, Except.toBool]

theorem sha1Bytes_length (msg : List Nat) : (sha1Bytes msg).length = 20 := by
  unfold sha1Bytes
  obtain ⟨h0, h1, h2, h3, h4⟩ := sha1Words msg
  simp [be4]

theorem sha1hex_length (msg : List Nat) : (sha1hex msg).length = 40 := by
  have hfold : ∀ (l : List Nat),
      (l.foldr (fun b acc => hexDig (b / 16 % 16) :: hexDig (b % 16) :: acc)
        ([] : List Char)).length = 2 * l.length := by
    intro l
    induction l with
    | nil => simp
    | cons b t ih => simp [ih]; omega
  show (String.mk _).length = 40
  have : ∀ cs : List Char, (String.mk cs).length = cs.length := fun _ => rfl
  rw [this, hfold, sha1Bytes_length]

theorem object_write_key (obj : GitObject) (aw : Bool) (fs : FS) (k : String) (fs' : FS)
    (h : object_write obj aw fs = .ok (k, fs')) :
    k = sha1hex (envelopeBytes (fmtOf obj.data) (serializeObj obj.data)) := by
  unfold object_write at h
  cases aw with
  | false =>
    simp only [if_false, Bool.false_eq_true] at h
    cases h
    rfl
  | true =>
    simp only [if_true, bind, Except.bind] at h
    repeat' split at h
    any_goals cases h
    all_goals rfl

/-- C3: the key returned by object_write is the 40-character hex SHA-1 of
exactly the envelope `<type> <decimal-length>\0<payload>`; in particular the
hello blob produces the envelope `blob 6\0hello\n` and always the fixed key
ce013625030ba8dba906f756967f9e9ca394464a. -/
theorem claimC3 :
    (∀ (obj : GitObject) (aw : Bool) (fs : FS) (k : String) (fs' : FS),
      object_write obj aw fs = .ok (k, fs') →
        k = sha1hex (envelopeBytes (fmtOf obj.data) (serializeObj obj.data)) ∧
        k.length = 40) ∧
    envelopeBytes bBlob (asciiBytes "hello\n") = asciiBytes "blob 6\x00hello\n" ∧
    sha1hex (asciiBytes "blob 6\x00hello\n") = "ce013625030ba8dba906f756967f9e9ca394464a" ∧
    (∀ fs : FS, object_write { repo := none, data := .blob (asciiBytes "hello\n") } false fs =
      .ok ("ce013625030ba8dba906f756967f9e9ca394464a", fs)) := by
  refine ⟨?_, by decide, by decide, ?_⟩
  · intro obj aw fs k fs' h
    have hk := object_write_key obj aw fs k fs' h
    exact ⟨hk, by rw [hk]; exact sha1hex_length _⟩
  · intro fs
    show Except.ok (sha1hex (envelopeBytes bBlob (asciiBytes "hello\n")), fs) = _
    rw [show sha1hex (envelopeBytes bBlob (asciiBytes "hello\n"))
          = "ce013625030ba8dba906f756967f9e9ca394464a" from by decide]

/-- C3 witness. -/
theorem claimC3_witness :
    sha1hex (envelopeBytes bBlob [104]) =
      sha1hex (envelopeBytes (fmtOf (ObjData.blob [104])) (serializeObj (ObjData.blob [104]))) ∧
    (sha1hex (envelopeBytes bBlob [104])).length = 40 :=
  claimC3.1 { repo := none, data := .blob [104] } false fsBase
    (sha1hex (envelopeBytes bBlob [104])) fsBase rfl

theorem repo_file_some (fs : FS) (repo : GitRepository) (segs : FsPath) (mk : Bool)
    (p : FsPath) (fs2 : FS) (h : repo_file fs repo segs mk = .ok (some p, fs2)) :
    p = repo_path repo segs := by
  unfold repo_file at h
  simp only [bind, Except.bind] at h
  cases hrd : repo_dir fs repo segs.dropLast mk with
  | error e => rw [hrd] at h; cases h
  | ok v =>
    rw [hrd] at h
    dsimp only at h
    cases hv : v.1 with
    | none => rw [hv] at h; cases h
    | some q => rw [hv] at h; cases h; rfl

theorem writeFile_isFile (fs : FS) (p : FsPath) (d : FileData) (fs' : FS)
    (h : writeFile fs p d = .ok fs') : isFile fs' p = true := by
  unfold writeFile at h
  by_cases hd : isDir fs p
  · rw [if_pos hd] at h; cases h
  · rw [if_neg hd] at h
    cases h
    simp [isFile, upsertFile_find_self]

/-- C9: object_write with persist=false returns the content-hash key while
leaving the filesystem entirely unchanged; a successful persist=true call
returns the same key (a pure function of the object) and does create the
loose-object file `objects/<first-2>/<rest>`. -/
theorem claimC9 :
    (∀ (obj : GitObject) (fs : FS),
      object_write obj false fs =
        .ok (sha1hex (envelopeBytes (fmtOf obj.data) (serializeObj obj.data)), fs)) ∧
    (∀ (obj : GitObject) (repo : GitRepository) (fs : FS) (k : String) (fs' : FS),
      obj.repo = some repo →
      object_write obj true fs = .ok (k, fs') →
        k = sha1hex (envelopeBytes (fmtOf obj.data) (serializeObj obj.data)) ∧
        isFile fs' (objectFilePath repo k) = true) := by
  constructor
  · intro obj fs
    rfl
  · intro obj repo fs k fs' hro h
    have hk := object_write_key obj true fs k fs' h
    subst hk
    refine ⟨rfl, ?_⟩
    unfold object_write at h
    rw [hro] at h
    simp only [if_true, bind, Except.bind] at h
    cases hrf : repo_file fs repo
        ["objects",
         (sha1hex (envelopeBytes (fmtOf obj.data) (serializeObj obj.data))).take 2,
         (sha1hex (envelopeBytes (fmtOf obj.data) (serializeObj obj.data))).drop 2] true with
    | error e => rw [hrf] at h; cases h
    | ok v =>
      rw [hrf] at h
      dsimp only at h
      cases hv : v.1 with
      | none => rw [hv] at h; cases h
      | some path =>
        rw [hv] at h
        dsimp only at h
        cases hw : writeFile v.2 path
            (.bytes (zlibCompress (envelopeBytes (fmtOf obj.data) (serializeObj obj.data)))) with
        | error e => rw [hw] at h; cases h
        | ok fs3 =>
          rw [hw] at h
          dsimp only at h
          cases h
          have hp : path = repo_path repo
              ["objects",
               (sha1hex (envelopeBytes (fmtOf obj.data) (serializeObj obj.data))).take 2,
               (sha1hex (envelopeBytes (fmtOf obj.data) (serializeObj obj.data))).drop 2] := by
            apply repo_file_some fs repo _ true path v.2
            rw [hrf]
            cases hvv : v with
            | mk a b => rw [hvv] at hv; cases hv; rfl
          have hfin := writeFile_isFile v.2 path _ fs' hw
          rw [hp] at hfin
          exact hfin

/-- C9 witness. -/
theorem claimC9_witness :
    ({ repo := some repoR1, data := .blob [104] } : GitObject).repo = some repoR1 ∧
    (∃ fsOut,
      object_write { repo := some repoR1, data := .blob [104] } true fsSkel = .ok
        (sha1hex (envelopeBytes bBlob [104]), fsOut) ∧
      sha1hex (envelopeBytes bBlob [104]) =
        sha1hex (envelopeBytes (fmtOf (ObjData.blob [104])) (serializeObj (ObjData.blob [104]))) ∧
      isFile fsOut (objectFilePath repoR1 (sha1hex (envelopeBytes bBlob [104]))) = true) := by
  refine ⟨rfl,
    { dirs := fsSkel.dirs ++ [gitR1 ++ ["objects", (sha1hex (envelopeBytes bBlob [104])).take 2]],
      files := fsSkel.files ++
        [(objectFilePath repoR1 (sha1hex (envelopeBytes bBlob [104])),
          .bytes (zlibCompress (envelopeBytes bBlob [104])))] },
    by decide, rfl,
    (claimC9.2 { repo := some repoR1, data := .blob [104] } repoR1 fsSkel _ _ rfl (by decide)).2⟩

/-- C10: the key computed by the hashing path is a function of the type tag
and payload only — any two runs of object_hash on the same (fmt, data), with
any repository handles (including none, the hash-object dry run) and hence
either persist behaviour, produce the identical key. -/
theorem claimC10 (fmt data : List Nat) (rA rB : Option GitRepository) (fsA fsB : FS)
    (kA kB : String) (fsA2 fsB2 : FS)
    (hA : object_hash data fmt rA fsA = .ok (kA, fsA2))
    (hB : object_hash data fmt rB fsB = .ok (kB, fsB2)) : kA = kB := by
  unfold object_hash at hA hB
  cases hc : cls_map_get fmt with
  | none => rw [hc] at hA; cases hA
  | some c =>
    rw [hc] at hA hB
    dsimp only at hA hB
    simp only [bind, Except.bind] at hA hB
    cases hd : clsDeserialize c data with
    | error e => rw [hd] at hA; cases hA
    | ok d =>
      rw [hd] at hA hB
      dsimp only at hA hB
      have h1 := object_write_key _ _ _ _ _ hA
      have h2 := object_write_key _ _ _ _ _ hB
      exact h1.trans h2.symm

/-- C10 witness: one run without a repository (no write) and one against a
real store agree on the key. -/
theorem claimC10_witness :
    sha1hex (envelopeBytes bBlob [104, 105]) = sha1hex (envelopeBytes bBlob [104, 105]) :=
  claimC10 bBlob [104, 105] none (some repoR1) fsBase fsSkel
    (sha1hex (envelopeBytes bBlob [104, 105])) (sha1hex (envelopeBytes bBlob [104, 105]))
    fsBase
    { dirs := fsSkel.dirs ++
        [gitR1 ++ ["objects", (sha1hex (envelopeBytes bBlob [104, 105])).take 2]],
      files := fsSkel.files ++
        [(objectFilePath repoR1 (sha1hex (envelopeBytes bBlob [104, 105])),
          .bytes (zlibCompress (envelopeBytes bBlob [104, 105])))] }
    (by decide) (by decide)

/-- C4 counterexample: on a freshly initialized repository, reading a key
with no corresponding file raises the builtin TypeError (from opening the
None returned by repo_file), not a typed ObjectNotFound naming the object. -/
theorem claimC4_counterexample :
    object_read fsSkel repoR1 "0123456789abcdef0123456789abcdef01234567" =
      .error .typeErrorNonePath ∧
    storeHasObject fsSkel repoR1 "0123456789abcdef0123456789abcdef01234567" = false := by
  constructor
  · decide
  · decide

/-- C4 (amended): when no object file exists for the key, object_read does
fail, but with a generic builtin error — TypeError (bucket directory absent,
repo_file returns None), FileNotFoundError (bucket present, file absent),
NotADirectoryError (bucket path is a regular file) or IsADirectoryError (the
object path is a directory) — never a typed ObjectNotFound naming the
object. -/
theorem claimC4 (fs : FS) (repo : GitRepository) (sha : String)
    (habsent : isFile fs (objectFilePath repo sha) = false) :
    ∃ e, object_read fs repo sha = .error e ∧
      (e = .typeErrorNonePath ∨
       e = .fileNotFound (objectFilePath repo sha) ∨
       e = .notADirectory (repo.gitdir ++ ["objects", sha.take 2]) ∨
       e = .isADirectory (objectFilePath repo sha)) := by
  unfold object_read
  rw [show repo_file fs repo ["objects", sha.take 2, sha.drop 2] false
        = repo_file fs repo ["objects", sha.take 2, sha.drop 2] false from rfl]
  unfold repo_file
  rw [show (["objects", sha.take 2, sha.drop 2] : FsPath).dropLast
        = ["objects", sha.take 2] from rfl]
  rw [repo_dir_nomkdir]
  by_cases h1 : isDir fs (repo_path repo ["objects", sha.take 2])
  · rw [if_pos h1]
    simp only [bind, Except.bind]
    have hpath : repo_path repo ["objects", sha.take 2, sha.drop 2] =
        objectFilePath repo sha := rfl
    rw [hpath]
    unfold openRead
    have hnf : findFile fs.files (objectFilePath repo sha) = none := by
      unfold isFile at habsent
      cases hf : findFile fs.files (objectFilePath repo sha) with
      | none => rfl
      | some d => rw [hf] at habsent; simp at habsent
    rw [hnf]
    by_cases h2 : isDir fs (objectFilePath repo sha)
    · rw [if_pos h2]
      exact ⟨.isADirectory (objectFilePath repo sha), rfl, by simp⟩
    · rw [if_neg h2]
      exact ⟨.fileNotFound (objectFilePath repo sha), rfl, by simp⟩
  · rw [if_neg h1]
    by_cases h2 : isFile fs (repo_path repo ["objects", sha.take 2])
    · rw [if_pos h2]
      exact ⟨.notADirectory (repo.gitdir ++ ["objects", sha.take 2]), rfl, by simp⟩
    · rw [if_neg h2]
      exact ⟨.typeErrorNonePath, rfl, by simp⟩

/-- C4 witness: with the bucket directory present but the object file
absent, the failure is the builtin FileNotFoundError. -/
theorem claimC4_witness :
    isFile { dirs := fsSkel.dirs ++ [gitR1 ++ ["objects", "01"]], files := fsSkel.files }
        (objectFilePath repoR1 "0199999999999999999999999999999999999999") = false ∧
    (∃ e, object_read
        { dirs := fsSkel.dirs ++ [gitR1 ++ ["objects", "01"]], files := fsSkel.files }
        repoR1 "0199999999999999999999999999999999999999" = .error e ∧
      (e = .typeErrorNonePath ∨
       e = .fileNotFound (objectFilePath repoR1 "0199999999999999999999999999999999999999") ∨
       e = .notADirectory (repoR1.gitdir ++
             ["objects", ("0199999999999999999999999999999999999999" : String).take 2]) ∨
       e = .isADirectory (objectFilePath repoR1 "0199999999999999999999999999999999999999"))) :=
  ⟨by decide,
   claimC4 { dirs := fsSkel.dirs ++ [gitR1 ++ ["objects", "01"]], files := fsSkel.files }
     repoR1 "0199999999999999999999999999999999999999" (by decide)⟩

theorem take_min_length (l : List Nat) (b : Nat) : l.take (min b l.length) = l.take b := by
  rcases Nat.le_total b l.length with h | h
  · rw [min_eq_left h]
  · rw [min_eq_right h, List.take_length, List.take_of_length_le h]

theorem drop_min_length (l : List Nat) (a : Nat) : l.drop (min a l.length) = l.drop a := by
  rcases Nat.le_total a l.length with h | h
  · rw [min_eq_left h]
  · rw [min_eq_right h, List.drop_length, List.drop_of_length_le h]

theorem pySlice_coe (l : List Nat) (a b : Nat) :
    pySlice l (a : Int) (b : Int) = (l.take b).drop a := by
  unfold pySlice pyIdx
  have ha : ¬((a : Int) < 0) := by omega
  have hb : ¬((b : Int) < 0) := by omega
  rw [if_neg ha, if_neg hb]
  simp only [Int.toNat_natCast]
  rw [take_min_length]
  rcases Nat.le_total a l.length with h | h
  · rw [min_eq_left h]
  · have hlen : (l.take b).length ≤ l.length := by simp
    rw [min_eq_right h, List.drop_of_length_le hlen, List.drop_of_length_le (le_trans hlen h)]

theorem byteIndexFrom_zero_hit (p q : List Nat) (b : Nat) (hb : b ∉ p) :
    byteIndexFrom (p ++ b :: q) b 0 = some p.length := by
  induction p with
  | nil => simp [byteIndexFrom]
  | cons a t ih =>
    have ha : a ≠ b := by
      intro hab
      exact hb (by rw [hab]; exact List.mem_cons_self b t)
    have hbt : b ∉ t := fun hmem => hb (List.mem_cons_of_mem a hmem)
    simp [byteIndexFrom, ha, ih hbt]

theorem byteIndexFrom_shift (p q : List Nat) (b : Nat) :
    byteIndexFrom (p ++ q) b p.length = (byteIndexFrom q b 0).map (· + p.length) := by
  induction p with
  | nil =>
    cases h : byteIndexFrom q b 0 <;> simp [h]
  | cons a t ih =>
    show (byteIndexFrom (t ++ q) b t.length).map (· + 1) = _
    rw [ih]
    cases h : byteIndexFrom q b 0 <;> simp [h, List.length_cons] <;> omega

theorem isWsByte_digit (b : Nat) (h : 48 ≤ b) : isWsByte b = false := by
  simp [isWsByte]
  omega

theorem digitsVal_of_digits (ds : List Nat) (hne : ds ≠ [])
    (hd : ∀ b ∈ ds, 48 ≤ b ∧ b ≤ 57) :
    digitsVal ds = some (ds.foldl (fun a b => a * 10 + (b - 48)) 0) := by
  unfold digitsVal
  rw [if_pos]
  exact ⟨hne, List.all_eq_true.mpr (fun b hb => by
    have := hd b hb
    simp [this.1, this.2])⟩

theorem pyInt_space_digits (ds : List Nat) (hne : ds ≠ [])
    (hd : ∀ b ∈ ds, 48 ≤ b ∧ b ≤ 57) :
    pyInt (32 :: ds) = some ((ds.foldl (fun a b => a * 10 + (b - 48)) 0 : Nat) : Int) := by
  obtain ⟨d0, dt, rfl⟩ := List.exists_cons_of_ne_nil hne
  have hd0 := hd d0 (List.mem_cons_self d0 dt)
  have hstrip1 : (32 :: d0 :: dt).dropWhile isWsByte = d0 :: dt := by
    rw [List.dropWhile_cons_of_pos (by simp [isWsByte]),
        List.dropWhile_cons_of_neg (by simp [isWsByte_digit d0 hd0.1])]
  rw [pyInt, hstrip1]
  have hrev : (d0 :: dt).reverse ≠ [] := by simp
  obtain ⟨r0, rt, hr⟩ := List.exists_cons_of_ne_nil hrev
  have hr0mem : r0 ∈ d0 :: dt := by
    rw [← List.mem_reverse, hr]
    exact List.mem_cons_self r0 rt
  have hr0 := hd r0 hr0mem
  rw [hr, List.dropWhile_cons_of_neg (by simp [isWsByte_digit r0 hr0.1]), ← hr,
      List.reverse_reverse]
  have h45 : d0 ≠ 45 := by omega
  have h43 : d0 ≠ 43 := by omega
  simp only [h45, h43, if_false, if_neg h45, if_neg h43]
  rw [digitsVal_of_digits (d0 :: dt) (by simp) hd]
  rfl

theorem pySlice_zero_coe (l : List Nat) (b : Nat) : pySlice l 0 (b : Int) = l.take b := by
  have h := pySlice_coe l 0 b
  simpa using h

theorem unenvelope_canonical (sha : String) (fmt digits payload : List Nat)
    (hfmt : 32 ∉ fmt) (hne : digits ≠ []) (hd : ∀ b ∈ digits, 48 ≤ b ∧ b ≤ 57) :
    unenvelope sha (fmt ++ 32 :: (digits ++ 0 :: payload)) =
      (if digits.foldl (fun a b => a * 10 + (b - 48)) 0 = payload.length
       then .ok (fmt, payload)
       else .error (.malformedLength sha)) := by
  have hlenraw : (fmt ++ 32 :: (digits ++ 0 :: payload)).length =
      fmt.length + digits.length + payload.length + 2 := by
    simp
    omega
  have hfi : bFind (fmt ++ 32 :: (digits ++ 0 :: payload)) 32 0 = (fmt.length : Int) := by
    unfold bFind pyIdx
    norm_num
    rw [byteIndexFrom_zero_hit fmt (digits ++ 0 :: payload) 32 hfmt]
  have hsplit : fmt ++ 32 :: (digits ++ 0 :: payload) = fmt ++ ((32 :: digits) ++ 0 :: payload) :=
    rfl
  have hinner : byteIndexFrom ((32 :: digits) ++ 0 :: payload) 0 0 = some (digits.length + 1) := by
    have h := byteIndexFrom_zero_hit (32 :: digits) payload 0 (by
      intro hmem
      rcases List.mem_cons.mp hmem with h | h
      · omega
      · have := hd 0 h; omega)
    simpa using h
  have hsi : bFind (fmt ++ 32 :: (digits ++ 0 :: payload)) 0 (fmt.length : Int) =
      ((digits.length + 1 + fmt.length : Nat) : Int) := by
    unfold bFind pyIdx
    have hnn : ¬((fmt.length : Int) < 0) := by omega
    rw [if_neg hnn]
    simp only [Int.toNat_natCast]
    have hle : fmt.length ≤ (fmt ++ 32 :: (digits ++ 0 :: payload)).length := by
      simp
    rw [min_eq_left hle, hsplit, byteIndexFrom_shift fmt ((32 :: digits) ++ 0 :: payload) 0,
        hinner]
    rfl
  have hslice1 : pySlice (fmt ++ 32 :: (digits ++ 0 :: payload)) 0 (fmt.length : Int) = fmt := by
    rw [pySlice_zero_coe]
    exact List.take_left fmt _
  have hassoc2 : fmt ++ 32 :: (digits ++ 0 :: payload) =
      (fmt ++ 32 :: digits) ++ 0 :: payload := by
    simp
  have hslice2 : pySlice (fmt ++ 32 :: (digits ++ 0 :: payload)) (fmt.length : Int)
      ((digits.length + 1 + fmt.length : Nat) : Int) = 32 :: digits := by
    rw [pySlice_coe]
    have hidx : digits.length + 1 + fmt.length = (fmt ++ 32 :: digits).length := by
      simp
      omega
    rw [hidx, hassoc2, List.take_left]
    have : fmt ++ 32 :: digits = fmt ++ (32 :: digits) := rfl
    rw [this, List.drop_left]
  have hassoc3 : fmt ++ 32 :: (digits ++ 0 :: payload) =
      (fmt ++ 32 :: digits ++ [0]) ++ payload := by
    simp
  have hslice3 : pySlice (fmt ++ 32 :: (digits ++ 0 :: payload))
      (((digits.length + 1 + fmt.length : Nat) : Int) + 1)
      (((fmt ++ 32 :: (digits ++ 0 :: payload)).length : Nat) : Int) = payload := by
    have hcast : (((digits.length + 1 + fmt.length : Nat) : Int) + 1) =
        ((digits.length + 1 + fmt.length + 1 : Nat) : Int) := by push_cast; ring
    rw [hcast, pySlice_coe, List.take_length]
    have hidx : digits.length + 1 + fmt.length + 1 = (fmt ++ 32 :: digits ++ [0]).length := by
      simp
      omega
    rw [hidx, hassoc3, List.drop_left]
  have hpy := pyInt_space_digits digits hne hd
  unfold unenvelope
  rw [hfi]
  dsimp only
  rw [hsi, hslice2, hpy]
  have harith : ((fmt ++ 32 :: (digits ++ 0 :: payload)).length : Int) -
      ((digits.length + 1 + fmt.length : Nat) : Int) - 1 = (payload.length : Int) := by
    rw [hlenraw]
    push_cast
    ring
  rw [harith]
  dsimp only
  by_cases hn : digits.foldl (fun a b => a * 10 + (b - 48)) 0 = payload.length
  · rw [if_pos hn]
    have hcond : ¬(((digits.foldl (fun a b => a * 10 + (b - 48)) 0 : Nat) : Int) ≠
        (payload.length : Int)) := by
      push_cast
      omega
    rw [if_neg hcond, hslice1, hslice3]
  · rw [if_neg hn]
    have hcond : (((digits.foldl (fun a b => a * 10 + (b - 48)) 0 : Nat) : Int) ≠
        (payload.length : Int)) := by
      push_cast
      omega
    rw [if_pos hcond]

/-- C5: for a stored byte sequence whose envelope declares a decimal length
different from the actual payload length after the NUL, object_read fails
with the MalformedObject (bad length) error; it gets past the envelope check
only when the declared length equals the actual payload length. -/
theorem claimC5 (fs : FS) (repo : GitRepository) (sha : String)
    (fmt digits payload : List Nat)
    (hfmt : 32 ∉ fmt) (hne : digits ≠ []) (hd : ∀ b ∈ digits, 48 ≤ b ∧ b ≤ 57)
    (hbucket : isDir fs (repo.gitdir ++ ["objects", sha.take 2]) = true)
    (hfile : findFile fs.files (objectFilePath repo sha) =
      some (.bytes (zlibCompress (fmt ++ 32 :: (digits ++ 0 :: payload))))) :
    (digits.foldl (fun a b => a * 10 + (b - 48)) 0 ≠ payload.length →
      object_read fs repo sha = .error (.malformedLength sha)) ∧
    (∀ obj, object_read fs repo sha = .ok obj →
      digits.foldl (fun a b => a * 10 + (b - 48)) 0 = payload.length) := by
  have hread : object_read fs repo sha =
      (match unenvelope sha (fmt ++ 32 :: (digits ++ 0 :: payload)) with
       | .error e => .error e
       | .ok fd =>
         match cls_map_get fd.1 with
         | none => .error (.unknownTypeRead sha)
         | some c => (clsDeserialize c fd.2).map
             (fun d => ({ repo := some repo, data := d } : GitObject))) := by
    unfold object_read
    unfold repo_file
    rw [show (["objects", sha.take 2, sha.drop 2] : FsPath).dropLast
          = ["objects", sha.take 2] from rfl]
    have hb2 : isDir fs (repo_path repo ["objects", sha.take 2]) = true := hbucket
    rw [repo_dir_nomkdir, if_pos hb2]
    simp only [bind, Except.bind]
    have hpath : repo_path repo ["objects", sha.take 2, sha.drop 2] =
        objectFilePath repo sha := rfl
    rw [hpath]
    unfold openRead
    rw [hfile]
    dsimp only
    simp only [zlibCompress, zlibDecompress]
    cases hu : unenvelope sha (fmt ++ 32 :: (digits ++ 0 :: payload)) with
    | error e => rfl
    | ok fd =>
      cases fd with
      | mk f d => rfl
  constructor
  · intro hmis
    rw [hread, unenvelope_canonical sha fmt digits payload hfmt hne hd, if_neg hmis]
  · intro obj hobj
    by_contra hmis
    rw [hread, unenvelope_canonical sha fmt digits payload hfmt hne hd, if_neg hmis] at hobj
    cases hobj

/-- C5 witness: the hello blob envelope truncated by one byte (declared
length 6, actual 5) is rejected with the malformed-length error; the intact
envelope is read back successfully. -/
theorem claimC5_witness :
    (object_read
      { dirs := fsSkel.dirs ++ [gitR1 ++ ["objects", "aa"]],
        files := fsSkel.files ++
          [(objectFilePath repoR1 "aa00000000000000000000000000000000000000",
            .bytes (zlibCompress (asciiBytes "blob 6\x00hello")))] }
      repoR1 "aa00000000000000000000000000000000000000" =
      .error (.malformedLength "aa00000000000000000000000000000000000000")) ∧
    ([54].foldl (fun a b => a * 10 + (b - 48)) 0 ≠ (asciiBytes "hello").length) := by
  constructor
  · exact (claimC5 _ repoR1 "aa00000000000000000000000000000000000000"
      bBlob [54] (asciiBytes "hello") (by decide) (by decide) (by decide) (by decide)
      (by decide)).1 (by decide)
  · decide

theorem linesOf_ne_nil (l : List Nat) : linesOf l ≠ [] := by
  cases l with
  | nil => simp [linesOf]
  | cons b t =>
    unfold linesOf
    by_cases hb : b = 10
    · simp [hb]
    · simp only [hb, if_false]
      cases linesOf t <;> simp

theorem cons_headI_tail (l : List (List Nat)) (h : l ≠ []) : l.headI :: l.tail = l := by
  cases l with
  | nil => exact absurd rfl h
  | cons a t => rfl

theorem linesOf_cons_ne10 (b : Nat) (t : List Nat) (hb : b ≠ 10) :
    linesOf (b :: t) = (b :: (linesOf t).headI) :: (linesOf t).tail := by
  have hstep : linesOf (b :: t) =
      (if b = 10 then [] :: linesOf t
       else match linesOf t with
            | [] => [[b]]
            | x :: xs => (b :: x) :: xs) := rfl
  rw [hstep, if_neg hb]
  cases h : linesOf t with
  | nil => exact absurd h (linesOf_ne_nil t)
  | cons x xs => rfl

theorem joinLines_linesOf (l : List Nat) : joinLines (linesOf l) = l := by
  induction l with
  | nil => rfl
  | cons b t ih =>
    by_cases hb : b = 10
    · subst hb
      show joinLines ([] :: linesOf t) = 10 :: t
      cases h : linesOf t with
      | nil => exact absurd h (linesOf_ne_nil t)
      | cons x xs =>
        show [] ++ 10 :: joinLines (x :: xs) = 10 :: t
        rw [← h, ih]
        rfl
    · rw [linesOf_cons_ne10 b t hb]
      cases h : linesOf t with
      | nil => exact absurd h (linesOf_ne_nil t)
      | cons x xs =>
        rw [h] at ih
        cases xs with
        | nil =>
          show b :: x = b :: t
          have hx : joinLines [x] = t := ih
          simp only [joinLines] at hx
          rw [hx]
        | cons y ys =>
          show (b :: x) ++ 10 :: joinLines (y :: ys) = b :: t
          have hx : x ++ 10 :: joinLines (y :: ys) = t := ih
          simp [← hx]

theorem linesOf_append_lf (x y : List Nat) :
    linesOf (x ++ 10 :: y) = linesOf x ++ linesOf y := by
  induction x with
  | nil => simp [linesOf]
  | cons b t ih =>
    by_cases hb : b = 10
    · subst hb
      show linesOf (10 :: (t ++ 10 :: y)) = linesOf (10 :: t) ++ linesOf y
      have h1 : linesOf (10 :: (t ++ 10 :: y)) = [] :: linesOf (t ++ 10 :: y) := rfl
      have h2 : linesOf (10 :: t) = [] :: linesOf t := rfl
      rw [h1, h2, ih]
      rfl
    · rw [show (b :: t) ++ 10 :: y = b :: (t ++ 10 :: y) from rfl,
          linesOf_cons_ne10 b _ hb, linesOf_cons_ne10 b t hb, ih]
      have hne := linesOf_ne_nil t
      cases h : linesOf t with
      | nil => exact absurd h hne
      | cons u us => simp

theorem linesOf_append_no10 (k z : List Nat) (hk : 10 ∉ k) :
    linesOf (k ++ z) = (k ++ (linesOf z).headI) :: (linesOf z).tail := by
  induction k with
  | nil =>
    simp only [List.nil_append]
    exact (cons_headI_tail (linesOf z) (linesOf_ne_nil z)).symm
  | cons b t ih =>
    have hb : b ≠ 10 := fun h => hk (h ▸ List.mem_cons_self b t)
    have ht : 10 ∉ t := fun h => hk (List.mem_cons_of_mem b h)
    rw [show (b :: t) ++ z = b :: (t ++ z) from rfl, linesOf_cons_ne10 b _ hb, ih ht]
    rfl

theorem linesOf_escape (v : List Nat) :
    linesOf (escapeVal v) =
      (linesOf v).headI :: ((linesOf v).tail.map (fun l => 32 :: l)) := by
  induction v with
  | nil => rfl
  | cons b t ih =>
    by_cases hb : b = 10
    · subst hb
      have hesc : escapeVal (10 :: t) = 10 :: 32 :: escapeVal t := by
        simp [escapeVal]
      have h10 : linesOf (10 :: t) = [] :: linesOf t := rfl
      have h10b : linesOf (10 :: 32 :: escapeVal t) = [] :: linesOf (32 :: escapeVal t) := rfl
      have h32 : linesOf (32 :: escapeVal t) =
          (32 :: (linesOf (escapeVal t)).headI) :: (linesOf (escapeVal t)).tail :=
        linesOf_cons_ne10 32 _ (by omega)
      rw [hesc, h10b, h32, ih, h10]
      have hcht := cons_headI_tail (linesOf t) (linesOf_ne_nil t)
      rw [← hcht]
      simp
    · have hesc : escapeVal (b :: t) = b :: escapeVal t := by
        simp [escapeVal, hb]
      rw [hesc, linesOf_cons_ne10 b _ hb, ih, linesOf_cons_ne10 b t hb]
      simp

theorem splitAtByte_append (sep : Nat) (k rest : List Nat) (hk : sep ∉ k) :
    splitAtByte sep (k ++ sep :: rest) = some (k, rest) := by
  induction k with
  | nil => simp [splitAtByte]
  | cons a t ih =>
    have ha : a ≠ sep := fun h => hk (h ▸ List.mem_cons_self a t)
    have ht : sep ∉ t := fun h => hk (List.mem_cons_of_mem a h)
    show splitAtByte sep (a :: (t ++ sep :: rest)) = _
    unfold splitAtByte
    rw [if_neg ha, ih ht]
    rfl

theorem takeWhile_append_all (p : List Nat → Bool) (xs ys : List (List Nat))
    (h : ∀ x ∈ xs, p x = true) :
    (xs ++ ys).takeWhile p = xs ++ ys.takeWhile p := by
  induction xs with
  | nil => rfl
  | cons a t ih =>
    have ha := h a (List.mem_cons_self a t)
    show List.takeWhile p (a :: (t ++ ys)) = _
    rw [List.takeWhile_cons_of_pos ha, ih (fun x hx => h x (List.mem_cons_of_mem a hx))]
    rfl

theorem dropWhile_append_all (p : List Nat → Bool) (xs ys : List (List Nat))
    (h : ∀ x ∈ xs, p x = true) :
    (xs ++ ys).dropWhile p = ys.dropWhile p := by
  induction xs with
  | nil => rfl
  | cons a t ih =>
    have ha := h a (List.mem_cons_self a t)
    show List.dropWhile p (a :: (t ++ ys)) = _
    rw [List.dropWhile_cons_of_pos ha, ih (fun x hx => h x (List.mem_cons_of_mem a hx))]

theorem contValue_joinLines (tv : List (List Nat)) (hv : List Nat) :
    hv ++ contValue (tv.map (fun l => 32 :: l)) = joinLines (hv :: tv) := by
  induction tv generalizing hv with
  | nil => simp [contValue, joinLines]
  | cons c ct ih =>
    show hv ++ contValue ((32 :: c) :: ct.map (fun l => 32 :: l)) = _
    unfold contValue
    show hv ++ (10 :: ((32 :: c).drop 1 ++ contValue (ct.map (fun l => 32 :: l)))) = _
    have hdrop : (32 :: c).drop 1 = c := rfl
    rw [hdrop]
    have := ih c
    show hv ++ (10 :: (c ++ contValue (ct.map (fun l => 32 :: l)))) =
      hv ++ 10 :: joinLines (c :: ct)
    rw [this]

theorem serializeKVLM_first_line (t : List (List Nat × List Nat)) (msg : List Nat)
    (hwt : WfHeaders t) :
    startsWithSpace (linesOf (serializeKVLM t msg)).headI = false := by
  cases t with
  | nil =>
    show startsWithSpace (linesOf (10 :: msg)).headI = false
    have h10 : linesOf (10 :: msg) = [] :: linesOf msg := rfl
    rw [h10]
    rfl
  | cons kv2 t2 =>
    obtain ⟨k2, v2⟩ := kv2
    obtain ⟨hk2ne, hk232, hk210⟩ := hwt (k2, v2) (List.mem_cons_self _ _)
    show startsWithSpace
      (linesOf (k2 ++ 32 :: (escapeVal v2 ++ 10 :: serializeKVLM t2 msg))).headI = false
    rw [linesOf_append_no10 k2 _ hk210]
    obtain ⟨c, k2', rfl⟩ := List.exists_cons_of_ne_nil hk2ne
    have hc : c ≠ 32 := fun h => hk232 (h ▸ List.mem_cons_self c k2')
    show startsWithSpace (c :: (k2' ++ _)) = false
    simp [startsWithSpace, hc]

theorem parseHL_serialize (hs : List (List Nat × List Nat)) (msg : List Nat)
    (hwf : WfHeaders hs) :
    parseHL (linesOf (serializeKVLM hs msg)) = .ok (hs, linesOf msg) := by
  induction hs with
  | nil =>
    show parseHL (linesOf (10 :: msg)) = _
    have h10 : linesOf (10 :: msg) = [] :: linesOf msg := rfl
    rw [h10]
    simp [parseHL]
  | cons kv t ih =>
    obtain ⟨k, v⟩ := kv
    obtain ⟨hkne, hk32, hk10⟩ := hwf (k, v) (List.mem_cons_self _ _)
    have hwt : WfHeaders t := fun kv2 hm => hwf kv2 (List.mem_cons_of_mem _ hm)
    show parseHL (linesOf (k ++ 32 :: (escapeVal v ++ 10 :: serializeKVLM t msg))) = _
    have hlines : linesOf (k ++ 32 :: (escapeVal v ++ 10 :: serializeKVLM t msg)) =
        (k ++ 32 :: (linesOf v).headI) ::
          ((linesOf v).tail.map (fun l => 32 :: l) ++ linesOf (serializeKVLM t msg)) := by
      rw [linesOf_append_no10 k _ hk10, linesOf_cons_ne10 32 _ (by omega),
          linesOf_append_lf (escapeVal v) (serializeKVLM t msg), linesOf_escape v]
      have hne := linesOf_ne_nil v
      cases hv : linesOf v with
      | nil => exact absurd hv hne
      | cons x xs => simp
    rw [hlines, parseHL.eq_def]
    dsimp only
    have hLne : ¬(k ++ 32 :: (linesOf v).headI = []) := by simp
    rw [if_neg hLne, splitAtByte_append 32 k _ hk32]
    dsimp only
    rw [if_neg hkne]
    have hall : ∀ x ∈ (linesOf v).tail.map (fun l => 32 :: l),
        startsWithSpace x = true := by
      intro x hx
      obtain ⟨l, _, rfl⟩ := List.mem_map.mp hx
      rfl
    have hSne := linesOf_ne_nil (serializeKVLM t msg)
    have hfirst := serializeKVLM_first_line t msg hwt
    obtain ⟨s0, srest, hS⟩ := List.exists_cons_of_ne_nil hSne
    have hfirst0 : startsWithSpace s0 = false := by
      rw [hS] at hfirst
      exact hfirst
    have htw : ((linesOf v).tail.map (fun l => 32 :: l) ++
        linesOf (serializeKVLM t msg)).takeWhile startsWithSpace =
        (linesOf v).tail.map (fun l => 32 :: l) := by
      rw [takeWhile_append_all startsWithSpace _ _ hall, hS,
          List.takeWhile_cons_of_neg (by simp [hfirst0])]
      simp
    have hdw : ((linesOf v).tail.map (fun l => 32 :: l) ++
        linesOf (serializeKVLM t msg)).dropWhile startsWithSpace =
        linesOf (serializeKVLM t msg) := by
      rw [dropWhile_append_all startsWithSpace _ _ hall, hS,
          List.dropWhile_cons_of_neg (by simp [hfirst0])]
    rw [htw, hdw, ih hwt]
    dsimp only
    rw [contValue_joinLines ((linesOf v).tail) ((linesOf v).headI),
        cons_headI_tail (linesOf v) (linesOf_ne_nil v), joinLines_linesOf v]

theorem parseKVLM_serialize (hs : List (List Nat × List Nat)) (msg : List Nat)
    (hwf : WfHeaders hs) :
    parseKVLM (serializeKVLM hs msg) = .ok (hs, msg) := by
  unfold parseKVLM
  rw [parseHL_serialize hs msg hwf]
  simp [Except.map, joinLines_linesOf]

theorem parseTree_serialize (es : List TreeEntry) (hwf : WfTreeEntries es) :
    parseTree (serializeTree es) = .ok es := by
  induction es with
  | nil => simp [parseTree, serializeTree]
  | cons e t ih =>
    obtain ⟨hm32, hn0, hsha⟩ := hwf e (List.mem_cons_self _ _)
    have hwt : WfTreeEntries t := fun e2 hm => hwf e2 (List.mem_cons_of_mem _ hm)
    have hser : serializeTree (e :: t) =
        e.mode ++ 32 :: (e.name ++ 0 :: (e.sha ++ serializeTree t)) := by
      show serializeTreeEntry e ++ serializeTree t = _
      unfold serializeTreeEntry
      simp
    rw [hser]
    obtain ⟨c, cs, hcs⟩ : ∃ c cs,
        e.mode ++ 32 :: (e.name ++ 0 :: (e.sha ++ serializeTree t)) = c :: cs := by
      cases hm : e.mode with
      | nil => exact ⟨32, _, rfl⟩
      | cons a as => exact ⟨a, _, rfl⟩
    rw [hcs, parseTree.eq_def]
    dsimp only
    rw [← hcs, splitAtByte_append 32 e.mode _ hm32]
    dsimp only
    rw [splitAtByte_append 0 e.name _ hn0]
    dsimp only
    have hlen : 20 ≤ (e.sha ++ serializeTree t).length := by
      simp [hsha]
    rw [if_pos hlen]
    have htake : (e.sha ++ serializeTree t).take 20 = e.sha := by
      rw [← hsha]
      exact List.take_left _ _
    have hdrop : (e.sha ++ serializeTree t).drop 20 = serializeTree t := by
      rw [← hsha]
      exact List.drop_left _ _
    rw [hdrop, ih hwt]
    dsimp only
    rw [htake]

theorem natDigitsCore_acc (fuel : Nat) : ∀ (n : Nat) (acc : List Nat),
    natDigitsCore fuel n acc = natDigitsCore fuel n [] ++ acc := by
  induction fuel with
  | zero => intro n acc; rfl
  | succ f ih =>
    intro n acc
    unfold natDigitsCore
    by_cases hn : n < 10
    · simp [hn]
    · simp only [hn, if_false]
      rw [ih (n / 10) ((48 + n % 10) :: acc), ih (n / 10) [(48 + n % 10)]]
      simp

theorem natDigitsCore_fuel (n : Nat) : ∀ (f1 f2 : Nat) (acc : List Nat),
    n < f1 → n < f2 → natDigitsCore f1 n acc = natDigitsCore f2 n acc := by
  induction n using Nat.strong_induction_on with
  | _ n ih =>
    intro f1 f2 acc h1 h2
    cases f1 with
    | zero => omega
    | succ g1 =>
      cases f2 with
      | zero => omega
      | succ g2 =>
        unfold natDigitsCore
        by_cases hn : n < 10
        · simp [hn]
        · simp only [hn, if_false]
          have hd : n / 10 < n := Nat.div_lt_self (by omega) (by omega)
          exact ih (n / 10) hd g1 g2 _ (by omega) (by omega)

theorem natDigits_lt10 (n : Nat) (h : n < 10) : natDigits n = [48 + n] := by
  unfold natDigits natDigitsCore
  simp [h, Nat.mod_eq_of_lt h]

theorem natDigits_ge10 (n : Nat) (h : 10 ≤ n) :
    natDigits n = natDigits (n / 10) ++ [48 + n % 10] := by
  have h1 : natDigits n = natDigitsCore n (n / 10) [48 + n % 10] := by
    have hstep : natDigits n =
        (if n < 10 then [48 + n % 10] else natDigitsCore n (n / 10) [48 + n % 10]) := rfl
    rw [hstep, if_neg (by omega)]
  rw [h1, natDigitsCore_acc n (n / 10) [48 + n % 10],
      natDigitsCore_fuel (n / 10) n (n / 10 + 1) []
        (Nat.div_lt_self (by omega) (by omega)) (by omega)]
  rfl

theorem natDigits_ne_nil (n : Nat) : natDigits n ≠ [] := by
  by_cases h : n < 10
  · rw [natDigits_lt10 n h]
    simp
  · rw [natDigits_ge10 n (by omega)]
    simp

theorem natDigits_all_digit (n : Nat) : ∀ b ∈ natDigits n, 48 ≤ b ∧ b ≤ 57 := by
  induction n using Nat.strong_induction_on with
  | _ n ih =>
    by_cases h : n < 10
    · rw [natDigits_lt10 n h]
      intro b hb
      simp at hb
      omega
    · rw [natDigits_ge10 n (by omega)]
      intro b hb
      rcases List.mem_append.mp hb with hb | hb
      · exact ih (n / 10) (Nat.div_lt_self (by omega) (by omega)) b hb
      · simp at hb
        have := Nat.mod_lt n (show 0 < 10 from by omega)
        omega

theorem natDigits_foldl (n : Nat) :
    (natDigits n).foldl (fun a b => a * 10 + (b - 48)) 0 = n := by
  induction n using Nat.strong_induction_on with
  | _ n ih =>
    by_cases h : n < 10
    · rw [natDigits_lt10 n h]
      simp
    · rw [natDigits_ge10 n (by omega), List.foldl_append,
          ih (n / 10) (Nat.div_lt_self (by omega) (by omega))]
      simp
      omega

/-- C6: for each variant, deserializing the serialization of a well-formed
object under its own type yields back a structurally equal object, and
unenveloping the envelope of (type, payload) yields back (type, payload). -/
theorem claimC6 :
    (∀ d : List Nat, clsDeserialize .blob (serializeObj (.blob d)) = .ok (.blob d)) ∧
    (∀ (hs : List (List Nat × List Nat)) (msg : List Nat), WfHeaders hs →
      clsDeserialize .commit (serializeObj (.commit hs msg)) = .ok (.commit hs msg)) ∧
    (∀ (hs : List (List Nat × List Nat)) (msg : List Nat), WfHeaders hs →
      clsDeserialize .tag (serializeObj (.tag hs msg)) = .ok (.tag hs msg)) ∧
    (∀ es : List TreeEntry, WfTreeEntries es →
      clsDeserialize .tree (serializeObj (.tree es)) = .ok (.tree es)) ∧
    (∀ (fmt payload : List Nat) (sha : String), 32 ∉ fmt →
      unenvelope sha (envelopeBytes fmt payload) = .ok (fmt, payload)) := by
  refine ⟨fun d => rfl, ?_, ?_, ?_, ?_⟩
  · intro hs msg hwf
    show (parseKVLM (serializeKVLM hs msg)).map _ = _
    rw [parseKVLM_serialize hs msg hwf]
    rfl
  · intro hs msg hwf
    show (parseKVLM (serializeKVLM hs msg)).map _ = _
    rw [parseKVLM_serialize hs msg hwf]
    rfl
  · intro es hwf
    show (parseTree (serializeTree es)).map _ = _
    rw [parseTree_serialize es hwf]
    rfl
  · intro fmt payload sha hfmt
    show unenvelope sha (fmt ++ 32 :: (natDigits payload.length ++ 0 :: payload)) = _
    rw [unenvelope_canonical sha fmt (natDigits payload.length) payload hfmt
        (natDigits_ne_nil _) (natDigits_all_digit _),
        if_pos (natDigits_foldl payload.length)]

/-- C6 witness: round-trips at a concrete commit, tag, tree, blob and
envelope. -/
theorem claimC6_witness :
    clsDeserialize .blob (serializeObj (.blob [0, 255])) = .ok (.blob [0, 255]) ∧
    clsDeserialize .commit
        (serializeObj (.commit [(asciiBytes "tree", asciiBytes "abc"),
          (asciiBytes "author", asciiBytes "a b\nmulti")] (asciiBytes "hi\n"))) =
      .ok (.commit [(asciiBytes "tree", asciiBytes "abc"),
          (asciiBytes "author", asciiBytes "a b\nmulti")] (asciiBytes "hi\n")) ∧
    clsDeserialize .tag
        (serializeObj (.tag [(asciiBytes "object", asciiBytes "deadbeef")] [])) =
      .ok (.tag [(asciiBytes "object", asciiBytes "deadbeef")] []) ∧
    clsDeserialize .tree
        (serializeObj (.tree [⟨asciiBytes "100644", asciiBytes "f.txt", List.replicate 20 7⟩])) =
      .ok (.tree [⟨asciiBytes "100644", asciiBytes "f.txt", List.replicate 20 7⟩]) ∧
    unenvelope "w" (envelopeBytes bBlob (asciiBytes "hello\n")) =
      .ok (bBlob, asciiBytes "hello\n") :=
  ⟨claimC6.1 [0, 255],
   claimC6.2.1 _ _ (by unfold WfHeaders; decide),
   claimC6.2.2.1 _ _ (by unfold WfHeaders; decide),
   claimC6.2.2.2.1 _ (by unfold WfTreeEntries; decide),
   claimC6.2.2.2.2 bBlob (asciiBytes "hello\n") "w" (by decide)⟩

/-- C8 counterexample: a start path whose own `.git` marker directory exists
(so it is the first marker ancestor), yet repo_find raises the
missing-configuration error from handle construction instead of returning a
handle on it. -/
theorem claimC8_counterexample :
    repo_find fsBareMarker ["a"] true = .error .configMissing ∧
    isDir fsBareMarker (["a"] ++ [".git"]) = true := by
  constructor
  · rw [repo_find.eq_def]
    rw [if_pos (show isDir fsBareMarker (["a"] ++ [".git"]) = true from by decide)]
    decide
  · decide

/-- C8 (amended): repo_find returns the result of constructing a handle on
the first ancestor (including the start) whose `.git` entry is a directory —
the handle when that repository's configuration is valid, and that
construction's error (e.g. missing configuration) otherwise; when no
ancestor up to the root carries the marker it raises when required and
returns None when optional. -/
theorem claimC8 (fs : FS) (path : FsPath) (required : Bool) :
    repo_find fs path required =
      (match firstMarker fs path with
       | some a => (gitRepositoryInit fs a false).map (fun r => some r)
       | none => if required then .error .noGitDir else .ok none) := by
  have hgen : ∀ (n : Nat) (p : FsPath), p.length = n →
      repo_find fs p required =
        (match firstMarker fs p with
         | some a => (gitRepositoryInit fs a false).map (fun r => some r)
         | none => if required then .error .noGitDir else .ok none) := by
    intro n
    induction n using Nat.strong_induction_on with
    | _ n ih =>
      intro p hn
      rw [repo_find.eq_def, firstMarker.eq_def]
      by_cases h1 : isDir fs (p ++ [".git"])
      · simp only [h1, if_true]
      · simp only [h1, Bool.false_eq_true, if_false]
        by_cases h2 : p = []
        · simp only [h2, if_true]
        · simp only [h2, if_false]
          have hlen : p.dropLast.length < n := by
            rw [← hn]
            have hne : p.length ≠ 0 := by
              intro h0
              exact h2 (List.eq_nil_of_length_eq_zero h0)
            simp [List.length_dropLast]
            omega
          exact ih p.dropLast.length hlen p.dropLast rfl
  exact hgen path.length path rfl

theorem prefixOfPath_refl (p : FsPath) : prefixOfPath p p = true := by
  induction p with
  | nil => rfl
  | cons a t ih => simp [prefixOfPath, ih]

theorem prefixOfPath_append (p r : FsPath) : prefixOfPath p (p ++ r) = true := by
  induction p with
  | nil => rfl
  | cons a t ih => simp [prefixOfPath, ih]

theorem app_ne (base : FsPath) (r1 r2 : List String) (h : r1 ≠ r2) :
    base ++ r1 ≠ base ++ r2 := by
  intro hc
  exact h (List.append_cancel_left hc)

theorem app_ne_self (base : FsPath) (r : List String) (h : r ≠ []) : base ++ r ≠ base := by
  intro hc
  have hl := congrArg List.length hc
  simp at hl
  exact h hl

theorem self_ne_app (base : FsPath) (r : List String) (h : r ≠ []) : base ≠ base ++ r :=
  fun hc => app_ne_self base r h hc.symm

theorem findFile_none_iff (l : List (FsPath × FileData)) (q : FsPath) :
    findFile l q = none ↔ ∀ e ∈ l, e.1 ≠ q := by
  induction l with
  | nil =>
    constructor
    · intro _ e he
      exact absurd he (List.not_mem_nil e)
    · intro _
      rfl
  | cons e t ih =>
    constructor
    · intro h f hf
      unfold findFile at h
      by_cases he : e.1 = q
      · rw [if_pos he] at h
        cases h
      · rw [if_neg he] at h
        rcases List.mem_cons.mp hf with rfl | hf2
        · exact he
        · exact (ih.mp h) f hf2
    · intro h
      unfold findFile
      rw [if_neg (h e (List.mem_cons_self e t))]
      exact ih.mpr (fun f hf => h f (List.mem_cons_of_mem e hf))

theorem noEntry_dir (fs : FS) (base q : FsPath) (h : noEntryAtOrUnder fs base = true)
    (hq : prefixOfPath base q = true) : containsPath fs.dirs q = false := by
  unfold noEntryAtOrUnder at h
  rw [Bool.and_eq_true] at h
  by_cases hc : containsPath fs.dirs q
  · have hmem := (containsPath_iff_mem fs.dirs q).mp hc
    have := List.all_eq_true.mp h.1 q hmem
    simp [hq] at this
  · simpa using hc

theorem noEntry_file (fs : FS) (base q : FsPath) (h : noEntryAtOrUnder fs base = true)
    (hq : prefixOfPath base q = true) : findFile fs.files q = none := by
  unfold noEntryAtOrUnder at h
  rw [Bool.and_eq_true] at h
  rw [findFile_none_iff]
  intro e hmem hc
  have := List.all_eq_true.mp h.2 e hmem
  rw [hc, hq] at this
  simp at this

theorem noEntry_isFile (fs : FS) (base q : FsPath) (h : noEntryAtOrUnder fs base = true)
    (hq : prefixOfPath base q = true) : isFile fs q = false := by
  unfold isFile
  rw [noEntry_file fs base q h hq]
  rfl

theorem prefixesOf_concat (p : FsPath) (a : String) :
    prefixesOf (p ++ [a]) = prefixesOf p ++ [p ++ [a]] := by
  unfold prefixesOf
  rw [show (p ++ [a]).length = p.length + 1 from by simp, List.range_succ, List.map_append]
  congr 1
  · apply List.map_congr_left
    intro i hi
    have hlt : i < p.length := List.mem_range.mp hi
    rw [List.take_append_of_le_length (by omega)]
  · simp

theorem prefixesOf_self_concat (p : FsPath) (hp : p ≠ []) :
    prefixesOf p = (prefixesOf p).dropLast ++ [p] := by
  have hn : p.length = p.length - 1 + 1 := by
    have : p.length ≠ 0 := fun h => hp (List.eq_nil_of_length_eq_zero h)
    omega
  unfold prefixesOf
  rw [hn, List.range_succ, List.map_append]
  have hlast : (List.map (fun i => p.take (i + 1)) [p.length - 1]) = [p] := by
    simp
    omega
  rw [hlast, List.dropLast_concat]

theorem ancestors_dir (fs : FS) (base q : FsPath) (h : ancestorsAreDirs fs base = true)
    (hq : q ∈ (prefixesOf base).dropLast) : isDir fs q = true :=
  List.all_eq_true.mp h q hq

theorem mkdirsList_skip (fs : FS) (l1 l2 : List FsPath)
    (h : ∀ q ∈ l1, isDir fs q = true) :
    mkdirsList fs (l1 ++ l2) = mkdirsList fs l2 := by
  induction l1 with
  | nil => rfl
  | cons q t ih =>
    show mkdirsList fs (q :: (t ++ l2)) = _
    have hstep : mkdirsList fs (q :: (t ++ l2)) =
        (if isDir fs q then mkdirsList fs (t ++ l2)
         else if isFile fs q then .error (.osNotADirectory q)
         else mkdirsList { fs with dirs := fs.dirs ++ [q] } (t ++ l2)) := rfl
    rw [hstep, if_pos (h q (List.mem_cons_self q t))]
    exact ih (fun x hx => h x (List.mem_cons_of_mem q hx))

theorem mkdirs_one (fs : FS) (skip : List FsPath) (q : FsPath)
    (hsk : ∀ x ∈ skip, isDir fs x = true)
    (h1 : isDir fs q = false) (h2 : isFile fs q = false) :
    mkdirsList fs (skip ++ [q]) = .ok { fs with dirs := fs.dirs ++ [q] } := by
  rw [mkdirsList_skip fs skip [q] hsk]
  have hstep : mkdirsList fs [q] =
      (if isDir fs q then mkdirsList fs []
       else if isFile fs q then .error (.osNotADirectory q)
       else mkdirsList { fs with dirs := fs.dirs ++ [q] } []) := rfl
  rw [hstep, if_neg (by simp [h1]), if_neg (by simp [h2])]
  rfl

theorem mkdirs_two (fs : FS) (skip : List FsPath) (q1 q2 : FsPath)
    (hsk : ∀ x ∈ skip, isDir fs x = true)
    (h11 : isDir fs q1 = false) (h12 : isFile fs q1 = false)
    (h21 : isDir fs q2 = false) (h22 : isFile fs q2 = false) (hne : q1 ≠ q2) :
    mkdirsList fs (skip ++ [q1, q2]) =
      .ok { fs with dirs := (fs.dirs ++ [q1]) ++ [q2] } := by
  rw [mkdirsList_skip fs skip [q1, q2] hsk]
  have hstep : mkdirsList fs [q1, q2] =
      (if isDir fs q1 then mkdirsList fs [q2]
       else if isFile fs q1 then .error (.osNotADirectory q1)
       else mkdirsList { fs with dirs := fs.dirs ++ [q1] } [q2]) := rfl
  rw [hstep, if_neg (by simp [h11]), if_neg (by simp [h12])]
  have hstep2 : mkdirsList { fs with dirs := fs.dirs ++ [q1] } [q2] =
      (if isDir { fs with dirs := fs.dirs ++ [q1] } q2 then
         mkdirsList { fs with dirs := fs.dirs ++ [q1] } []
       else if isFile { fs with dirs := fs.dirs ++ [q1] } q2 then
         .error (.osNotADirectory q2)
       else mkdirsList { fs with dirs := (fs.dirs ++ [q1]) ++ [q2] } []) := rfl
  rw [hstep2, if_neg (by
        show ¬(isDir { fs with dirs := fs.dirs ++ [q1] } q2 = true)
        unfold isDir
        rw [containsPath_append]
        unfold isDir at h21
        simp [h21, containsPath, hne]),
      if_neg (by
        show ¬(isFile { fs with dirs := fs.dirs ++ [q1] } q2 = true)
        unfold isFile at h22 ⊢
        simp at h22
        simp [h22])]
  rfl

theorem repo_dir_mkdir_absent (fs : FS) (repo : GitRepository) (segs : FsPath)
    (h : existsPath fs (repo_path repo segs) = false) :
    repo_dir fs repo segs true =
      (match makedirs fs (repo_path repo segs) with
       | .ok fs2 => .ok (some (repo_path repo segs), fs2)
       | .error e => .error e) := by
  unfold repo_dir
  dsimp only
  rw [h]
  simp only [Bool.false_eq_true, if_false, if_true, bind, Except.bind]
  cases makedirs fs (repo_path repo segs) <;> rfl

theorem writeFile_fresh (fs : FS) (p : FsPath) (d : FileData)
    (h1 : isDir fs p = false) (h2 : findFile fs.files p = none) :
    writeFile fs p d = .ok { fs with files := fs.files ++ [(p, d)] } := by
  unfold writeFile
  rw [if_neg (by simp [h1]), upsertFile_absent fs.files p d h2]

theorem repo_file_single (fs : FS) (repo : GitRepository) (s : String)
    (h : isDir fs repo.gitdir = true) :
    repo_file fs repo [s] false = .ok (some (repo.gitdir ++ [s]), fs) := by
  unfold repo_file
  rw [show ([s] : FsPath).dropLast = ([] : FsPath) from rfl, repo_dir_nomkdir]
  have hp : repo_path repo [] = repo.gitdir := by
    simp [repo_path]
  rw [hp, if_pos h]
  simp only [bind, Except.bind]
  rfl

theorem gitInit_force_noconfig (fs : FS) (path : FsPath)
    (h1 : isDir fs (path ++ [".git"]) = false) (h2 : isFile fs (path ++ [".git"]) = false) :
    gitRepositoryInit fs path true = .ok (mkRepoRecord path) := by
  unfold gitRepositoryInit
  dsimp only
  rw [repo_file_config, if_neg (by simp [h1]), if_neg (by simp [h2])]
  rfl

theorem gitInit_force_config (fs : FS) (path : FsPath)
    (e : List (String × String × String))
    (h1 : isDir fs (path ++ [".git"]) = true)
    (h2 : findFile fs.files (path ++ [".git", "config"]) = some (.config e)) :
    gitRepositoryInit fs path true =
      .ok { worktree := path, gitdir := path ++ [".git"], conf := e } := by
  unfold gitRepositoryInit
  dsimp only
  rw [repo_file_config, if_pos (by simp [h1])]
  simp only [bind, Except.bind]
  have hex : existsPath fs (path ++ [".git", "config"]) = true := by
    unfold existsPath isFile
    rw [h2]
    simp
  rw [hex, if_pos rfl, h2]
  rfl

theorem containsPath_snoc (d : List FsPath) (x q : FsPath) :
    containsPath (d ++ [x]) q = (containsPath d q || decide (x = q)) := by
  rw [containsPath_append]
  simp [containsPath]

theorem containsPath_cons (x : FsPath) (d : List FsPath) (q : FsPath) :
    containsPath (x :: d) q = (decide (x = q) || containsPath d q) := by
  by_cases h : x = q <;> simp [containsPath, h]

theorem containsPath_nil (q : FsPath) : containsPath ([] : List FsPath) q = false := rfl

theorem findFile_singleton (p : FsPath) (d : FileData) (q : FsPath) :
    findFile [(p, d)] q = (if p = q then some d else none) := by
  simp [findFile]

theorem app_eq_app_iff (base : FsPath) (r1 r2 : List String) :
    (base ++ r1 = base ++ r2) ↔ r1 = r2 :=
  ⟨List.append_cancel_left, fun h => by rw [h]⟩

theorem self_eq_app_iff (base : FsPath) (r : List String) : (base = base ++ r) ↔ r = [] := by
  constructor
  · intro h
    have hl := congrArg List.length h
    simp at hl
    exact hl
  · intro h
    rw [h]
    simp

theorem app_eq_self_iff (base : FsPath) (r : List String) : (base ++ r = base) ↔ r = [] := by
  constructor
  · intro h
    exact (self_eq_app_iff base r).mp h.symm
  · intro h
    rw [h]
    simp

theorem repo_dir_create_one (fs : FS) (repo : GitRepository) (segs : FsPath)
    (skip : List FsPath)
    (hpref : prefixesOf (repo_path repo segs) = skip ++ [repo_path repo segs])
    (hsk : ∀ q ∈ skip, isDir fs q = true)
    (h1 : isDir fs (repo_path repo segs) = false)
    (h2 : isFile fs (repo_path repo segs) = false) :
    repo_dir fs repo segs true =
      .ok (some (repo_path repo segs),
        { fs with dirs := fs.dirs ++ [repo_path repo segs] }) := by
  rw [repo_dir_mkdir_absent fs repo segs (by unfold existsPath; rw [h1, h2]; rfl)]
  unfold makedirs
  rw [hpref, mkdirs_one fs skip _ hsk h1 h2]

theorem repo_dir_create_two (fs : FS) (repo : GitRepository) (segs : FsPath)
    (skip : List FsPath) (mid : FsPath)
    (hpref : prefixesOf (repo_path repo segs) = skip ++ [mid, repo_path repo segs])
    (hsk : ∀ q ∈ skip, isDir fs q = true)
    (h11 : isDir fs mid = false) (h12 : isFile fs mid = false)
    (h21 : isDir fs (repo_path repo segs) = false)
    (h22 : isFile fs (repo_path repo segs) = false)
    (hne : mid ≠ repo_path repo segs) :
    repo_dir fs repo segs true =
      .ok (some (repo_path repo segs),
        { fs with dirs := (fs.dirs ++ [mid]) ++ [repo_path repo segs] }) := by
  rw [repo_dir_mkdir_absent fs repo segs (by unfold existsPath; rw [h21, h22]; rfl)]
  unfold makedirs
  rw [hpref, mkdirs_two fs skip mid _ hsk h11 h12 h21 h22 hne]

set_option maxHeartbeats 4000000 in
theorem repoCreateFresh (fs : FS) (wt : FsPath) (hwt : wt ≠ [])
    (hno : noEntryAtOrUnder fs wt = true) (hanc : ancestorsAreDirs fs wt = true) :
    repo_create fs wt =
      .ok (mkRepoRecord wt,
        { dirs := fs.dirs ++ skeletonDirs wt, files := fs.files ++ skeletonFiles wt }) := by
  have hdirF : ∀ r : List String, containsPath fs.dirs (wt ++ r) = false :=
    fun r => noEntry_dir fs wt _ hno (prefixOfPath_append wt r)
  have hfileF : ∀ r : List String, findFile fs.files (wt ++ r) = none :=
    fun r => noEntry_file fs wt _ hno (prefixOfPath_append wt r)
  have hdirwt : containsPath fs.dirs wt = false :=
    noEntry_dir fs wt wt hno (prefixOfPath_refl wt)
  have hfilewt : findFile fs.files wt = none :=
    noEntry_file fs wt wt hno (prefixOfPath_refl wt)
  have hw : (mkRepoRecord wt).worktree = wt := rfl
  have hg : (mkRepoRecord wt).gitdir = wt ++ [".git"] := rfl
  have nwtg : wt ≠ wt ++ [".git"] := self_ne_app wt [".git"] (by decide)
  have nwtb : wt ≠ wt ++ [".git", "branches"] := self_ne_app wt _ (by decide)
  have nwto : wt ≠ wt ++ [".git", "objects"] := self_ne_app wt _ (by decide)
  have nwtr : wt ≠ wt ++ [".git", "refs"] := self_ne_app wt _ (by decide)
  have nwtt : wt ≠ wt ++ [".git", "refs", "tags"] := self_ne_app wt _ (by decide)
  have nwth : wt ≠ wt ++ [".git", "refs", "heads"] := self_ne_app wt _ (by decide)
  have ngb : wt ++ [".git"] ≠ wt ++ [".git", "branches"] := app_ne wt _ _ (by decide)
  have ngo : wt ++ [".git"] ≠ wt ++ [".git", "objects"] := app_ne wt _ _ (by decide)
  have ngr : wt ++ [".git"] ≠ wt ++ [".git", "refs"] := app_ne wt _ _ (by decide)
  have ngt : wt ++ [".git"] ≠ wt ++ [".git", "refs", "tags"] := app_ne wt _ _ (by decide)
  have ngh : wt ++ [".git"] ≠ wt ++ [".git", "refs", "heads"] := app_ne wt _ _ (by decide)
  have nbo : wt ++ [".git", "branches"] ≠ wt ++ [".git", "objects"] := app_ne wt _ _ (by decide)
  have nbr : wt ++ [".git", "branches"] ≠ wt ++ [".git", "refs"] := app_ne wt _ _ (by decide)
  have nbt : wt ++ [".git", "branches"] ≠ wt ++ [".git", "refs", "tags"] :=
    app_ne wt _ _ (by decide)
  have nbh : wt ++ [".git", "branches"] ≠ wt ++ [".git", "refs", "heads"] :=
    app_ne wt _ _ (by decide)
  have nor : wt ++ [".git", "objects"] ≠ wt ++ [".git", "refs"] := app_ne wt _ _ (by decide)
  have noT : wt ++ [".git", "objects"] ≠ wt ++ [".git", "refs", "tags"] :=
    app_ne wt _ _ (by decide)
  have noH : wt ++ [".git", "objects"] ≠ wt ++ [".git", "refs", "heads"] :=
    app_ne wt _ _ (by decide)
  have nrt : wt ++ [".git", "refs"] ≠ wt ++ [".git", "refs", "tags"] := app_ne wt _ _ (by decide)
  have nrh : wt ++ [".git", "refs"] ≠ wt ++ [".git", "refs", "heads"] := app_ne wt _ _ (by decide)
  have nth : wt ++ [".git", "refs", "tags"] ≠ wt ++ [".git", "refs", "heads"] :=
    app_ne wt _ _ (by decide)
  have hskipBase : ∀ q ∈ prefixesOf wt, containsPath (fs.dirs ++ [wt]) q = true := by
    intro q hq
    rw [prefixesOf_self_concat wt hwt] at hq
    rcases List.mem_append.mp hq with hq | hq
    · rw [containsPath_snoc]
      have hq2 := ancestors_dir fs wt q hanc hq
      unfold isDir at hq2
      rw [hq2]
      rfl
    · simp at hq
      subst hq
      rw [containsPath_snoc]
      simp
  have hinit : gitRepositoryInit fs wt true = .ok (mkRepoRecord wt) :=
    gitInit_force_noconfig fs wt (hdirF [".git"])
      (by unfold isFile; rw [hfileF [".git"]]; rfl)
  have hmk1 : makedirs fs wt = .ok { fs with dirs := fs.dirs ++ [wt] } := by
    unfold makedirs
    rw [prefixesOf_self_concat wt hwt]
    exact mkdirs_one fs _ wt (fun q hq => ancestors_dir fs wt q hanc hq) hdirwt
      (by unfold isFile; rw [hfilewt]; rfl)
  unfold repo_create
  simp only [bind, Except.bind]
  rw [hinit]
  dsimp only
  rw [hw]
  rw [show existsPath fs wt = false from by unfold existsPath isDir isFile; rw [hdirwt, hfilewt]; rfl]
  simp only [Bool.false_eq_true, if_false]
  rw [hmk1]
  dsimp only
  have eb : repo_path (mkRepoRecord wt) ["branches"] = wt ++ [".git", "branches"] := by
    show (wt ++ [".git"]) ++ ["branches"] = _
    simp
  have hrd1 := repo_dir_create_two { dirs := fs.dirs ++ [wt], files := fs.files }
      (mkRepoRecord wt) ["branches"] (prefixesOf wt) (wt ++ [".git"])
      (by show prefixesOf ((wt ++ [".git"]) ++ ["branches"]) = _
          rw [prefixesOf_concat, prefixesOf_concat]
          simp [eb])
      (fun q hq => hskipBase q hq)
      (by simp [isDir, containsPath_append, containsPath_cons, containsPath_nil, hdirF,
            self_eq_app_iff, app_eq_app_iff])
      (by simp [isFile, hfileF])
      (by rw [eb]
          simp [isDir, containsPath_append, containsPath_cons, containsPath_nil, hdirF,
            self_eq_app_iff, app_eq_app_iff])
      (by rw [eb]
          simp [isFile, hfileF])
      (by rw [eb]
          simp [app_eq_app_iff])
  rw [eb] at hrd1
  rw [hrd1]
  dsimp only
  have eo : repo_path (mkRepoRecord wt) ["objects"] = wt ++ [".git", "objects"] := by
    show (wt ++ [".git"]) ++ ["objects"] = _
    simp
  have hrd2 := repo_dir_create_one { dirs := ((fs.dirs ++ [wt]) ++ [wt ++ [".git"]]) ++ [wt ++ [".git", "branches"]], files := fs.files }
      (mkRepoRecord wt) ["objects"] (prefixesOf wt ++ [wt ++ [".git"]])
      (by show prefixesOf ((wt ++ [".git"]) ++ ["objects"]) = _
          rw [prefixesOf_concat, prefixesOf_concat]
          simp [eo])
      (by intro q hq
          rcases List.mem_append.mp hq with hq | hq
          · have hb := hskipBase q hq
            simp only [containsPath_append, containsPath_cons, containsPath_nil,
              Bool.or_eq_true, decide_eq_true_eq, Bool.or_false, Bool.false_or] at hb
            simp only [isDir, containsPath_append, containsPath_cons, containsPath_nil,
              Bool.or_eq_true, decide_eq_true_eq, Bool.or_false, Bool.false_or]
            tauto
          · simp only [List.mem_singleton] at hq
            subst hq
            simp [isDir, containsPath_append, containsPath_cons, containsPath_nil])
      (by rw [eo]
          simp [isDir, containsPath_append, containsPath_cons, containsPath_nil, hdirF,
            self_eq_app_iff, app_eq_app_iff])
      (by rw [eo]
          simp [isFile, hfileF])
  rw [eo] at hrd2
  rw [hrd2]
  dsimp only
  have ert : repo_path (mkRepoRecord wt) ["refs", "tags"] = wt ++ [".git", "refs", "tags"] := by
    show (wt ++ [".git"]) ++ ["refs", "tags"] = _
    simp
  have hrd3 := repo_dir_create_two { dirs := (((fs.dirs ++ [wt]) ++ [wt ++ [".git"]]) ++ [wt ++ [".git", "branches"]]) ++ [wt ++ [".git", "objects"]], files := fs.files }
      (mkRepoRecord wt) ["refs", "tags"] (prefixesOf wt ++ [wt ++ [".git"]]) (wt ++ [".git", "refs"])
      (by show prefixesOf ((wt ++ [".git"]) ++ ["refs", "tags"]) = _
          rw [show ((wt ++ [".git"]) ++ ["refs", "tags"] : FsPath) =
                ((wt ++ [".git"]) ++ ["refs"]) ++ ["tags"] from by simp,
              prefixesOf_concat, prefixesOf_concat, prefixesOf_concat]
          simp [ert])
      (by intro q hq
          rcases List.mem_append.mp hq with hq | hq
          · have hb := hskipBase q hq
            simp only [containsPath_append, containsPath_cons, containsPath_nil,
              Bool.or_eq_true, decide_eq_true_eq, Bool.or_false, Bool.false_or] at hb
            simp only [isDir, containsPath_append, containsPath_cons, containsPath_nil,
              Bool.or_eq_true, decide_eq_true_eq, Bool.or_false, Bool.false_or]
            tauto
          · simp only [List.mem_singleton] at hq
            subst hq
            simp [isDir, containsPath_append, containsPath_cons, containsPath_nil])
      (by simp [isDir, containsPath_append, containsPath_cons, containsPath_nil, hdirF,
            self_eq_app_iff, app_eq_app_iff])
      (by simp [isFile, hfileF])
      (by rw [ert]
          simp [isDir, containsPath_append, containsPath_cons, containsPath_nil, hdirF,
            self_eq_app_iff, app_eq_app_iff])
      (by rw [ert]
          simp [isFile, hfileF])
      (by rw [ert]
          simp [app_eq_app_iff])
  rw [ert] at hrd3
  rw [hrd3]
  dsimp only
  have erh : repo_path (mkRepoRecord wt) ["refs", "heads"] = wt ++ [".git", "refs", "heads"] := by
    show (wt ++ [".git"]) ++ ["refs", "heads"] = _
    simp
  have hrd4 := repo_dir_create_one { dirs := (((((fs.dirs ++ [wt]) ++ [wt ++ [".git"]]) ++ [wt ++ [".git", "branches"]]) ++ [wt ++ [".git", "objects"]]) ++ [wt ++ [".git", "refs"]]) ++ [wt ++ [".git", "refs", "tags"]], files := fs.files }
      (mkRepoRecord wt) ["refs", "heads"] ((prefixesOf wt ++ [wt ++ [".git"]]) ++ [wt ++ [".git", "refs"]])
      (by show prefixesOf ((wt ++ [".git"]) ++ ["refs", "heads"]) = _
          rw [show ((wt ++ [".git"]) ++ ["refs", "heads"] : FsPath) =
                ((wt ++ [".git"]) ++ ["refs"]) ++ ["heads"] from by simp,
              prefixesOf_concat, prefixesOf_concat, prefixesOf_concat]
          simp [erh])
      (by intro q hq
          rcases List.mem_append.mp hq with hq | hq
          · rcases List.mem_append.mp hq with hq | hq
            · have hb := hskipBase q hq
              simp only [containsPath_append, containsPath_cons, containsPath_nil,
              Bool.or_eq_true, decide_eq_true_eq, Bool.or_false, Bool.false_or] at hb
              simp only [isDir, containsPath_append, containsPath_cons, containsPath_nil,
              Bool.or_eq_true, decide_eq_true_eq, Bool.or_false, Bool.false_or]
              tauto
            · simp only [List.mem_singleton] at hq
              subst hq
              simp [isDir, containsPath_append, containsPath_cons, containsPath_nil]
          · simp only [List.mem_singleton] at hq
            subst hq
            simp [isDir, containsPath_append, containsPath_cons, containsPath_nil])
      (by rw [erh]
          simp [isDir, containsPath_append, containsPath_cons, containsPath_nil, hdirF,
            self_eq_app_iff, app_eq_app_iff])
      (by rw [erh]
          simp [isFile, hfileF])
  rw [erh] at hrd4
  rw [hrd4]
  dsimp only
  have hf1 : isDir { dirs := ((((((fs.dirs ++ [wt]) ++ [wt ++ [".git"]]) ++ [wt ++ [".git", "branches"]]) ++ [wt ++ [".git", "objects"]]) ++ [wt ++ [".git", "refs"]]) ++ [wt ++ [".git", "refs", "tags"]]) ++ [wt ++ [".git", "refs", "heads"]], files := fs.files } (mkRepoRecord wt).gitdir = true := by
    rw [hg]
    simp [isDir, containsPath_append, containsPath_cons, containsPath_nil]
  have hrf1 := repo_file_single { dirs := ((((((fs.dirs ++ [wt]) ++ [wt ++ [".git"]]) ++ [wt ++ [".git", "branches"]]) ++ [wt ++ [".git", "objects"]]) ++ [wt ++ [".git", "refs"]]) ++ [wt ++ [".git", "refs", "tags"]]) ++ [wt ++ [".git", "refs", "heads"]], files := fs.files } (mkRepoRecord wt)
      "description" hf1
  rw [hg] at hrf1
  rw [hrf1]
  dsimp only
  have hwf1 := writeFile_fresh { dirs := ((((((fs.dirs ++ [wt]) ++ [wt ++ [".git"]]) ++ [wt ++ [".git", "branches"]]) ++ [wt ++ [".git", "objects"]]) ++ [wt ++ [".git", "refs"]]) ++ [wt ++ [".git", "refs", "tags"]]) ++ [wt ++ [".git", "refs", "heads"]], files := fs.files } (wt ++ [".git"] ++ ["description"])
      (FileData.bytes descriptionBytes)
      (by simp [isDir, containsPath_append, containsPath_cons, containsPath_nil, hdirF,
            self_eq_app_iff, app_eq_app_iff])
      (by simp [hfileF])
  rw [hwf1]
  dsimp only
  have hf2 : isDir { dirs := ((((((fs.dirs ++ [wt]) ++ [wt ++ [".git"]]) ++ [wt ++ [".git", "branches"]]) ++ [wt ++ [".git", "objects"]]) ++ [wt ++ [".git", "refs"]]) ++ [wt ++ [".git", "refs", "tags"]]) ++ [wt ++ [".git", "refs", "heads"]], files := fs.files ++ [(wt ++ [".git"] ++ ["description"], FileData.bytes descriptionBytes)] } (mkRepoRecord wt).gitdir = true := by
    rw [hg]
    simp [isDir, containsPath_append, containsPath_cons, containsPath_nil]
  have hrf2 := repo_file_single { dirs := ((((((fs.dirs ++ [wt]) ++ [wt ++ [".git"]]) ++ [wt ++ [".git", "branches"]]) ++ [wt ++ [".git", "objects"]]) ++ [wt ++ [".git", "refs"]]) ++ [wt ++ [".git", "refs", "tags"]]) ++ [wt ++ [".git", "refs", "heads"]], files := fs.files ++ [(wt ++ [".git"] ++ ["description"], FileData.bytes descriptionBytes)] } (mkRepoRecord wt)
      "HEAD" hf2
  rw [hg] at hrf2
  rw [hrf2]
  dsimp only
  have hwf2 := writeFile_fresh { dirs := ((((((fs.dirs ++ [wt]) ++ [wt ++ [".git"]]) ++ [wt ++ [".git", "branches"]]) ++ [wt ++ [".git", "objects"]]) ++ [wt ++ [".git", "refs"]]) ++ [wt ++ [".git", "refs", "tags"]]) ++ [wt ++ [".git", "refs", "heads"]], files := fs.files ++ [(wt ++ [".git"] ++ ["description"], FileData.bytes descriptionBytes)] } (wt ++ [".git"] ++ ["HEAD"])
      (FileData.bytes headRefBytes)
      (by simp [isDir, containsPath_append, containsPath_cons, containsPath_nil, hdirF,
            self_eq_app_iff, app_eq_app_iff])
      (by simp [findFile, findFile_append, findFile_singleton, hfileF, app_eq_app_iff])
  rw [hwf2]
  dsimp only
  have hf3 : isDir { dirs := ((((((fs.dirs ++ [wt]) ++ [wt ++ [".git"]]) ++ [wt ++ [".git", "branches"]]) ++ [wt ++ [".git", "objects"]]) ++ [wt ++ [".git", "refs"]]) ++ [wt ++ [".git", "refs", "tags"]]) ++ [wt ++ [".git", "refs", "heads"]], files := (fs.files ++ [(wt ++ [".git"] ++ ["description"], FileData.bytes descriptionBytes)]) ++ [(wt ++ [".git"] ++ ["HEAD"], FileData.bytes headRefBytes)] } (mkRepoRecord wt).gitdir = true := by
    rw [hg]
    simp [isDir, containsPath_append, containsPath_cons, containsPath_nil]
  have hrf3 := repo_file_single { dirs := ((((((fs.dirs ++ [wt]) ++ [wt ++ [".git"]]) ++ [wt ++ [".git", "branches"]]) ++ [wt ++ [".git", "objects"]]) ++ [wt ++ [".git", "refs"]]) ++ [wt ++ [".git", "refs", "tags"]]) ++ [wt ++ [".git", "refs", "heads"]], files := (fs.files ++ [(wt ++ [".git"] ++ ["description"], FileData.bytes descriptionBytes)]) ++ [(wt ++ [".git"] ++ ["HEAD"], FileData.bytes headRefBytes)] } (mkRepoRecord wt)
      "config" hf3
  rw [hg] at hrf3
  rw [hrf3]
  dsimp only
  have hwf3 := writeFile_fresh { dirs := ((((((fs.dirs ++ [wt]) ++ [wt ++ [".git"]]) ++ [wt ++ [".git", "branches"]]) ++ [wt ++ [".git", "objects"]]) ++ [wt ++ [".git", "refs"]]) ++ [wt ++ [".git", "refs", "tags"]]) ++ [wt ++ [".git", "refs", "heads"]], files := (fs.files ++ [(wt ++ [".git"] ++ ["description"], FileData.bytes descriptionBytes)]) ++ [(wt ++ [".git"] ++ ["HEAD"], FileData.bytes headRefBytes)] } (wt ++ [".git"] ++ ["config"])
      (FileData.config repo_default_config)
      (by simp [isDir, containsPath_append, containsPath_cons, containsPath_nil, hdirF,
            self_eq_app_iff, app_eq_app_iff])
      (by simp [findFile, findFile_append, findFile_singleton, hfileF, app_eq_app_iff])
  rw [hwf3]
  dsimp only
  simp [skeletonDirs, skeletonFiles]

theorem repoCreateEmptyDir (fs : FS) (wt : FsPath) (hwt : wt ≠ [])
    (hdir : isDir fs wt = true) (hanc : ancestorsAreDirs fs wt = true)
    (hchild : hasChildren fs wt = false) :
    repo_create fs wt =
      .ok (mkRepoRecord wt,
        { dirs := fs.dirs ++ (skeletonDirs wt).tail, files := fs.files ++ skeletonFiles wt }) := by
  have hdirU : ∀ r : List String, r ≠ [] → containsPath fs.dirs (wt ++ r) = false := by
    intro r hr
    cases hc : containsPath fs.dirs (wt ++ r) with
    | false => rfl
    | true =>
      exfalso
      have hm := (containsPath_iff_mem _ _).mp hc
      have hany : fs.dirs.any (fun q => properUnder wt q) = true :=
        List.any_eq_true.mpr ⟨wt ++ r, hm, by
          unfold properUnder
          rw [prefixOfPath_append]
          simp [app_eq_self_iff, hr]⟩
      unfold hasChildren at hchild
      rw [hany] at hchild
      simp at hchild
  have hfileU : ∀ r : List String, r ≠ [] → findFile fs.files (wt ++ r) = none := by
    intro r hr
    rw [findFile_none_iff]
    intro e he hee
    have hany : fs.files.any (fun e => properUnder wt e.1) = true :=
      List.any_eq_true.mpr ⟨e, he, by
        rw [hee]
        unfold properUnder
        rw [prefixOfPath_append]
        simp [app_eq_self_iff, hr]⟩
    unfold hasChildren at hchild
    rw [hany] at hchild
    simp at hchild
  have hw : (mkRepoRecord wt).worktree = wt := rfl
  have hg : (mkRepoRecord wt).gitdir = wt ++ [".git"] := rfl
  have hskipB : ∀ q ∈ prefixesOf wt, containsPath fs.dirs q = true := by
    intro q hq
    rw [prefixesOf_self_concat wt hwt] at hq
    rcases List.mem_append.mp hq with hq | hq
    · have hq2 := ancestors_dir fs wt q hanc hq
      unfold isDir at hq2
      exact hq2
    · simp at hq
      subst hq
      exact hdir
  have hinit : gitRepositoryInit fs wt true = .ok (mkRepoRecord wt) :=
    gitInit_force_noconfig fs wt (hdirU [".git"] (by decide))
      (by unfold isFile
          rw [hfileU [".git"] (by decide)]
          rfl)
  unfold repo_create
  simp only [bind, Except.bind]
  rw [hinit]
  dsimp only
  rw [hw]
  rw [show existsPath fs wt = true from by unfold existsPath; rw [hdir]; rfl, if_pos rfl]
  rw [show (!isDir fs wt) = false from by rw [hdir]; rfl]
  simp only [Bool.false_eq_true, if_false]
  rw [hchild]
  simp only [Bool.false_eq_true, if_false]
  have eb : repo_path (mkRepoRecord wt) ["branches"] = wt ++ [".git", "branches"] := by
    show (wt ++ [".git"]) ++ ["branches"] = _
    simp
  have hrd1 := repo_dir_create_two fs
      (mkRepoRecord wt) ["branches"] (prefixesOf wt) (wt ++ [".git"])
      (by show prefixesOf ((wt ++ [".git"]) ++ ["branches"]) = _
          rw [prefixesOf_concat, prefixesOf_concat]
          simp [eb])
      (fun q hq => hskipB q hq)
      (by simp [isDir, containsPath_append, containsPath_cons, containsPath_nil, hdirU,
            self_eq_app_iff, app_eq_app_iff])
      (by simp [isFile, hfileU])
      (by rw [eb]
          simp [isDir, containsPath_append, containsPath_cons, containsPath_nil, hdirU,
            self_eq_app_iff, app_eq_app_iff])
      (by rw [eb]
          simp [isFile, hfileU])
      (by rw [eb]
          simp [app_eq_app_iff])
  rw [eb] at hrd1
  rw [hrd1]
  dsimp only
  have eo : repo_path (mkRepoRecord wt) ["objects"] = wt ++ [".git", "objects"] := by
    show (wt ++ [".git"]) ++ ["objects"] = _
    simp
  have hrd2 := repo_dir_create_one { dirs := (fs.dirs ++ [wt ++ [".git"]]) ++ [wt ++ [".git", "branches"]], files := fs.files }
      (mkRepoRecord wt) ["objects"] (prefixesOf wt ++ [wt ++ [".git"]])
      (by show prefixesOf ((wt ++ [".git"]) ++ ["objects"]) = _
          rw [prefixesOf_concat, prefixesOf_concat]
          simp [eo])
      (by intro q hq
          rcases List.mem_append.mp hq with hq | hq
          · have hb := hskipB q hq
            simp only [isDir, containsPath_append, containsPath_cons, containsPath_nil,
              Bool.or_eq_true, decide_eq_true_eq, Bool.or_false, Bool.false_or]
            tauto
          · simp only [List.mem_singleton] at hq
            subst hq
            simp [isDir, containsPath_append, containsPath_cons, containsPath_nil])
      (by rw [eo]
          simp [isDir, containsPath_append, containsPath_cons, containsPath_nil, hdirU,
            self_eq_app_iff, app_eq_app_iff])
      (by rw [eo]
          simp [isFile, hfileU])
  rw [eo] at hrd2
  rw [hrd2]
  dsimp only
  have ert : repo_path (mkRepoRecord wt) ["refs", "tags"] = wt ++ [".git", "refs", "tags"] := by
    show (wt ++ [".git"]) ++ ["refs", "tags"] = _
    simp
  have hrd3 := repo_dir_create_two { dirs := ((fs.dirs ++ [wt ++ [".git"]]) ++ [wt ++ [".git", "branches"]]) ++ [wt ++ [".git", "objects"]], files := fs.files }
      (mkRepoRecord wt) ["refs", "tags"] (prefixesOf wt ++ [wt ++ [".git"]]) (wt ++ [".git", "refs"])
      (by show prefixesOf ((wt ++ [".git"]) ++ ["refs", "tags"]) = _
          rw [show ((wt ++ [".git"]) ++ ["refs", "tags"] : FsPath) =
                ((wt ++ [".git"]) ++ ["refs"]) ++ ["tags"] from by simp,
              prefixesOf_concat, prefixesOf_concat, prefixesOf_concat]
          simp [ert])
      (by intro q hq
          rcases List.mem_append.mp hq with hq | hq
          · have hb := hskipB q hq
            simp only [isDir, containsPath_append, containsPath_cons, containsPath_nil,
              Bool.or_eq_true, decide_eq_true_eq, Bool.or_false, Bool.false_or]
            tauto
          · simp only [List.mem_singleton] at hq
            subst hq
            simp [isDir, containsPath_append, containsPath_cons, containsPath_nil])
      (by simp [isDir, containsPath_append, containsPath_cons, containsPath_nil, hdirU,
            self_eq_app_iff, app_eq_app_iff])
      (by simp [isFile, hfileU])
      (by rw [ert]
          simp [isDir, containsPath_append, containsPath_cons, containsPath_nil, hdirU,
            self_eq_app_iff, app_eq_app_iff])
      (by rw [ert]
          simp [isFile, hfileU])
      (by rw [ert]
          simp [app_eq_app_iff])
  rw [ert] at hrd3
  rw [hrd3]
  dsimp only
  have erh : repo_path (mkRepoRecord wt) ["refs", "heads"] = wt ++ [".git", "refs", "heads"] := by
    show (wt ++ [".git"]) ++ ["refs", "heads"] = _
    simp
  have hrd4 := repo_dir_create_one { dirs := ((((fs.dirs ++ [wt ++ [".git"]]) ++ [wt ++ [".git", "branches"]]) ++ [wt ++ [".git", "objects"]]) ++ [wt ++ [".git", "refs"]]) ++ [wt ++ [".git", "refs", "tags"]], files := fs.files }
      (mkRepoRecord wt) ["refs", "heads"] ((prefixesOf wt ++ [wt ++ [".git"]]) ++ [wt ++ [".git", "refs"]])
      (by show prefixesOf ((wt ++ [".git"]) ++ ["refs", "heads"]) = _
          rw [show ((wt ++ [".git"]) ++ ["refs", "heads"] : FsPath) =
                ((wt ++ [".git"]) ++ ["refs"]) ++ ["heads"] from by simp,
              prefixesOf_concat, prefixesOf_concat, prefixesOf_concat]
          simp [erh])
      (by intro q hq
          rcases List.mem_append.mp hq with hq | hq
          · rcases List.mem_append.mp hq with hq | hq
            · have hb := hskipB q hq
              simp only [isDir, containsPath_append, containsPath_cons, containsPath_nil,
              Bool.or_eq_true, decide_eq_true_eq, Bool.or_false, Bool.false_or]
              tauto
            · simp only [List.mem_singleton] at hq
              subst hq
              simp [isDir, containsPath_append, containsPath_cons, containsPath_nil]
          · simp only [List.mem_singleton] at hq
            subst hq
            simp [isDir, containsPath_append, containsPath_cons, containsPath_nil])
      (by rw [erh]
          simp [isDir, containsPath_append, containsPath_cons, containsPath_nil, hdirU,
            self_eq_app_iff, app_eq_app_iff])
      (by rw [erh]
          simp [isFile, hfileU])
  rw [erh] at hrd4
  rw [hrd4]
  dsimp only
  have hf1 : isDir { dirs := (((((fs.dirs ++ [wt ++ [".git"]]) ++ [wt ++ [".git", "branches"]]) ++ [wt ++ [".git", "objects"]]) ++ [wt ++ [".git", "refs"]]) ++ [wt ++ [".git", "refs", "tags"]]) ++ [wt ++ [".git", "refs", "heads"]], files := fs.files } (mkRepoRecord wt).gitdir = true := by
    rw [hg]
    simp [isDir, containsPath_append, containsPath_cons, containsPath_nil]
  have hrf1 := repo_file_single { dirs := (((((fs.dirs ++ [wt ++ [".git"]]) ++ [wt ++ [".git", "branches"]]) ++ [wt ++ [".git", "objects"]]) ++ [wt ++ [".git", "refs"]]) ++ [wt ++ [".git", "refs", "tags"]]) ++ [wt ++ [".git", "refs", "heads"]], files := fs.files } (mkRepoRecord wt)
      "description" hf1
  rw [hg] at hrf1
  rw [hrf1]
  dsimp only
  have hwf1 := writeFile_fresh { dirs := (((((fs.dirs ++ [wt ++ [".git"]]) ++ [wt ++ [".git", "branches"]]) ++ [wt ++ [".git", "objects"]]) ++ [wt ++ [".git", "refs"]]) ++ [wt ++ [".git", "refs", "tags"]]) ++ [wt ++ [".git", "refs", "heads"]], files := fs.files } (wt ++ [".git"] ++ ["description"])
      (FileData.bytes descriptionBytes)
      (by simp [isDir, containsPath_append, containsPath_cons, containsPath_nil, hdirU,
            self_eq_app_iff, app_eq_app_iff])
      (by simp [hfileU])
  rw [hwf1]
  dsimp only
  have hf2 : isDir { dirs := (((((fs.dirs ++ [wt ++ [".git"]]) ++ [wt ++ [".git", "branches"]]) ++ [wt ++ [".git", "objects"]]) ++ [wt ++ [".git", "refs"]]) ++ [wt ++ [".git", "refs", "tags"]]) ++ [wt ++ [".git", "refs", "heads"]], files := fs.files ++ [(wt ++ [".git"] ++ ["description"], FileData.bytes descriptionBytes)] } (mkRepoRecord wt).gitdir = true := by
    rw [hg]
    simp [isDir, containsPath_append, containsPath_cons, containsPath_nil]
  have hrf2 := repo_file_single { dirs := (((((fs.dirs ++ [wt ++ [".git"]]) ++ [wt ++ [".git", "branches"]]) ++ [wt ++ [".git", "objects"]]) ++ [wt ++ [".git", "refs"]]) ++ [wt ++ [".git", "refs", "tags"]]) ++ [wt ++ [".git", "refs", "heads"]], files := fs.files ++ [(wt ++ [".git"] ++ ["description"], FileData.bytes descriptionBytes)] } (mkRepoRecord wt)
      "HEAD" hf2
  rw [hg] at hrf2
  rw [hrf2]
  dsimp only
  have hwf2 := writeFile_fresh { dirs := (((((fs.dirs ++ [wt ++ [".git"]]) ++ [wt ++ [".git", "branches"]]) ++ [wt ++ [".git", "objects"]]) ++ [wt ++ [".git", "refs"]]) ++ [wt ++ [".git", "refs", "tags"]]) ++ [wt ++ [".git", "refs", "heads"]], files := fs.files ++ [(wt ++ [".git"] ++ ["description"], FileData.bytes descriptionBytes)] } (wt ++ [".git"] ++ ["HEAD"])
      (FileData.bytes headRefBytes)
      (by simp [isDir, containsPath_append, containsPath_cons, containsPath_nil, hdirU,
            self_eq_app_iff, app_eq_app_iff])
      (by simp [findFile, findFile_append, findFile_singleton, hfileU, app_eq_app_iff])
  rw [hwf2]
  dsimp only
  have hf3 : isDir { dirs := (((((fs.dirs ++ [wt ++ [".git"]]) ++ [wt ++ [".git", "branches"]]) ++ [wt ++ [".git", "objects"]]) ++ [wt ++ [".git", "refs"]]) ++ [wt ++ [".git", "refs", "tags"]]) ++ [wt ++ [".git", "refs", "heads"]], files := (fs.files ++ [(wt ++ [".git"] ++ ["description"], FileData.bytes descriptionBytes)]) ++ [(wt ++ [".git"] ++ ["HEAD"], FileData.bytes headRefBytes)] } (mkRepoRecord wt).gitdir = true := by
    rw [hg]
    simp [isDir, containsPath_append, containsPath_cons, containsPath_nil]
  have hrf3 := repo_file_single { dirs := (((((fs.dirs ++ [wt ++ [".git"]]) ++ [wt ++ [".git", "branches"]]) ++ [wt ++ [".git", "objects"]]) ++ [wt ++ [".git", "refs"]]) ++ [wt ++ [".git", "refs", "tags"]]) ++ [wt ++ [".git", "refs", "heads"]], files := (fs.files ++ [(wt ++ [".git"] ++ ["description"], FileData.bytes descriptionBytes)]) ++ [(wt ++ [".git"] ++ ["HEAD"], FileData.bytes headRefBytes)] } (mkRepoRecord wt)
      "config" hf3
  rw [hg] at hrf3
  rw [hrf3]
  dsimp only
  have hwf3 := writeFile_fresh { dirs := (((((fs.dirs ++ [wt ++ [".git"]]) ++ [wt ++ [".git", "branches"]]) ++ [wt ++ [".git", "objects"]]) ++ [wt ++ [".git", "refs"]]) ++ [wt ++ [".git", "refs", "tags"]]) ++ [wt ++ [".git", "refs", "heads"]], files := (fs.files ++ [(wt ++ [".git"] ++ ["description"], FileData.bytes descriptionBytes)]) ++ [(wt ++ [".git"] ++ ["HEAD"], FileData.bytes headRefBytes)] } (wt ++ [".git"] ++ ["config"])
      (FileData.config repo_default_config)
      (by simp [isDir, containsPath_append, containsPath_cons, containsPath_nil, hdirU,
            self_eq_app_iff, app_eq_app_iff])
      (by simp [findFile, findFile_append, findFile_singleton, hfileU, app_eq_app_iff])
  rw [hwf3]
  dsimp only
  simp [skeletonDirs, skeletonFiles]

theorem repoCreateNonEmpty (fs : FS) (wt : FsPath) (r : GitRepository)
    (hinit : gitRepositoryInit fs wt true = .ok r) (hwk : r.worktree = wt)
    (hdir : isDir fs wt = true) (hch : hasChildren fs wt = true) :
    repo_create fs wt = .error (.notEmpty wt) := by
  unfold repo_create
  simp only [bind, Except.bind]
  rw [hinit]
  dsimp only
  rw [hwk]
  rw [show existsPath fs wt = true from by unfold existsPath; rw [hdir]; rfl, if_pos rfl]
  rw [show (!isDir fs wt) = false from by rw [hdir]; rfl]
  simp only [Bool.false_eq_true, if_false]
  rw [hch, if_pos rfl]

theorem repoCreateFileTarget (fs : FS) (wt : FsPath)
    (hfile : isFile fs wt = true) (hndir : isDir fs wt = false)
    (hdg : isDir fs (wt ++ [".git"]) = false) (hfg : isFile fs (wt ++ [".git"]) = false) :
    repo_create fs wt = .error (.notDirTarget wt) := by
  have hinit := gitInit_force_noconfig fs wt hdg hfg
  unfold repo_create
  simp only [bind, Except.bind]
  rw [hinit]
  dsimp only
  rw [show (mkRepoRecord wt).worktree = wt from rfl]
  rw [show existsPath fs wt = true from by unfold existsPath; rw [hndir, hfile]; rfl, if_pos rfl]
  rw [show (!isDir fs wt) = true from by rw [hndir]; rfl, if_pos rfl]


/-- C7: repo_create on a nonexistent target succeeds and produces exactly the expected
skeleton: the branches, objects, refs/tags and refs/heads directories (together with the
worktree and .git directories that contain them) plus the description file, a HEAD file
containing "ref: refs/heads/master\n", and a config with repositoryformatversion 0,
filemode false, bare false; calling it again on the now non-empty path fails with the
NotEmpty error. On an existing empty directory it succeeds with the same skeleton below
it, and when the target exists as a regular file it fails with the not-a-directory
error. -/
theorem claimC7 (fs : FS) (wt : FsPath) (hwt : wt ≠ [])
    (hanc : ancestorsAreDirs fs wt = true) :
    (noEntryAtOrUnder fs wt = true →
      repo_create fs wt =
        .ok (mkRepoRecord wt,
          { dirs := fs.dirs ++ skeletonDirs wt, files := fs.files ++ skeletonFiles wt }) ∧
      repo_create
          { dirs := fs.dirs ++ skeletonDirs wt, files := fs.files ++ skeletonFiles wt } wt =
        .error (.notEmpty wt)) ∧
    (isDir fs wt = true → hasChildren fs wt = false →
      repo_create fs wt =
        .ok (mkRepoRecord wt,
          { dirs := fs.dirs ++ (skeletonDirs wt).tail,
            files := fs.files ++ skeletonFiles wt })) ∧
    (isFile fs wt = true → isDir fs wt = false →
      isDir fs (wt ++ [".git"]) = false → isFile fs (wt ++ [".git"]) = false →
      repo_create fs wt = .error (.notDirTarget wt)) ∧
    skeletonFiles wt =
      [(wt ++ [".git", "description"], .bytes (asciiBytes
          "Unnamed repository; edit this file \x27description\x27 to name the repository.\n")),
        (wt ++ [".git", "HEAD"], .bytes (asciiBytes "ref: refs/heads/master\n")),
        (wt ++ [".git", "config"], .config
          [("core", "repositoryformatversion", "0"), ("core", "filemode", "false"),
           ("core", "bare", "false")])] := by
  refine ⟨?_, fun hdir hchild => repoCreateEmptyDir fs wt hwt hdir hanc hchild,
    fun h1 h2 h3 h4 => repoCreateFileTarget fs wt h1 h2 h3 h4, rfl⟩
  intro hno
  refine ⟨repoCreateFresh fs wt hwt hno hanc, ?_⟩
  have hfileF : ∀ r : List String, findFile fs.files (wt ++ r) = none :=
    fun r => noEntry_file fs wt _ hno (prefixOfPath_append wt r)
  have h1 : isDir
      { dirs := fs.dirs ++ skeletonDirs wt, files := fs.files ++ skeletonFiles wt }
      (wt ++ [".git"]) = true := by
    simp [isDir, skeletonDirs, containsPath_append, containsPath_cons, containsPath_nil]
  have h2 : findFile (fs.files ++ skeletonFiles wt) (wt ++ [".git", "config"]) =
      some (.config repo_default_config) := by
    rw [findFile_append, hfileF [".git", "config"]]
    simp [skeletonFiles, findFile, app_eq_app_iff]
  have hinitA := gitInit_force_config
      { dirs := fs.dirs ++ skeletonDirs wt, files := fs.files ++ skeletonFiles wt }
      wt repo_default_config h1 h2
  have hdirA : isDir
      { dirs := fs.dirs ++ skeletonDirs wt, files := fs.files ++ skeletonFiles wt }
      wt = true := by
    simp [isDir, skeletonDirs, containsPath_append, containsPath_cons, containsPath_nil]
  have hchA : hasChildren
      { dirs := fs.dirs ++ skeletonDirs wt, files := fs.files ++ skeletonFiles wt }
      wt = true := by
    unfold hasChildren
    have hany : (fs.dirs ++ skeletonDirs wt).any (fun q => properUnder wt q) = true :=
      List.any_eq_true.mpr ⟨wt ++ [".git"], by simp [skeletonDirs], by
        simp [properUnder, prefixOfPath_append, app_eq_self_iff]⟩
    rw [hany]
    rfl
  exact repoCreateNonEmpty _ wt _ hinitA rfl hdirA hchA

/-- Witness for C7: creating /tmp/r1 under an existing /tmp succeeds with the exact
skeleton, and a second call on the populated path fails with the NotEmpty error. -/
theorem claimC7_witness :
    repo_create fsBase wtR1 =
      .ok (mkRepoRecord wtR1,
        { dirs := fsBase.dirs ++ skeletonDirs wtR1,
          files := fsBase.files ++ skeletonFiles wtR1 }) ∧
    repo_create
        { dirs := fsBase.dirs ++ skeletonDirs wtR1,
          files := fsBase.files ++ skeletonFiles wtR1 } wtR1 =
      .error (.notEmpty wtR1) :=
  (claimC7 fsBase wtR1 (by decide) (by decide)).1 (by decide)
